import Mathlib

/-!
Verification of the graph walker of the cadmus-graph-shell repository
(`GraphWalker` in `graph-walker.ts`). The walker keeps a working set of
visual nodes and edges, expands entity nodes into property-group nodes,
expands property-group nodes into entity and literal nodes, and tears
down origin subtrees on collapse or re-expansion.

Modelling notes.
The source encodes node identifiers as strings: entity nodes are
`N` + numeric id (`buildNodeId`), property groups are `P` + predicate id +
`N` + anchor id (`buildPropertyId`), literals are `L` + triple id
(`buildLiteralId`). Numeric components are decimal numbers, so the string
encoding is injective and ids are modelled structurally by `WId`; each
string-scanning helper of the source (`getNodeNumericId`,
`getPredicateNumericId`, the edge id splitting on the first underscore,
the inbound-edge regular expression) is translated to the structural
operation it performs on these well-formed ids, which contain no
underscore. Edge ids `E<source>_<target>` are modelled by the pair of
endpoint ids (`GEdge.eid`). The reactive subjects of the class are
modelled by a state record `WState`; every public operation is an atomic
state transformer taking the query outcome as an argument (success data or
failure), mirroring the single-threaded merge described in the spec.
-/

set_option linter.unusedVariables false

/-- Identifier of a walker graph node: `N` + entity id, `P` + predicate id +
`N` + anchor entity id, or `L` + triple id in the string encoding of the
source. -/
inductive WId where
  | n (nodeId : Nat)
  | p (predicateId : Nat) (anchorId : Nat)
  | l (tripleId : Nat)
deriving DecidableEq, Repr

/-- Paginated triple filter (`TripleFilter`), with the fields the walker
uses: page number, page size and the optional subject/object anchor ids. -/
structure TripleFilter where
  pageNumber : Nat
  pageSize : Nat
  subjectId : Option Nat := none
  objectId : Option Nat := none
deriving DecidableEq, Repr

/-- Partial update of a `TripleFilter` (`Partial<TripleFilter>` in the
source): a field that is `some` replaces the matching key on merge. -/
structure TripleFilterUpdate where
  pageNumber : Option Nat := none
  pageSize : Option Nat := none
  subjectId : Option Nat := none
  objectId : Option Nat := none
deriving DecidableEq, Repr

/-- Paginated linked-node filter (`LinkedNodeFilter`), with the fields the
walker uses: page, anchor node id, predicate id and the role flag. -/
structure LinkedNodeFilter where
  pageNumber : Nat
  pageSize : Nat
  otherNodeId : Option Nat := none
  predicateId : Option Nat := none
  isObject : Option Bool := none
deriving DecidableEq, Repr

/-- Partial update of a `LinkedNodeFilter`. -/
structure LinkedNodeFilterUpdate where
  pageNumber : Option Nat := none
  pageSize : Option Nat := none
  otherNodeId : Option Nat := none
  predicateId : Option Nat := none
  isObject : Option Bool := none
deriving DecidableEq, Repr

/-- Paginated linked-literal filter (`LinkedLiteralFilter`), with the
fields the walker uses: page, subject anchor id and predicate id. -/
structure LinkedLiteralFilter where
  pageNumber : Nat
  pageSize : Nat
  subjectId : Option Nat := none
  predicateId : Option Nat := none
deriving DecidableEq, Repr

/-- Partial update of a `LinkedLiteralFilter`. -/
structure LinkedLiteralFilterUpdate where
  pageNumber : Option Nat := none
  pageSize : Option Nat := none
  subjectId : Option Nat := none
  predicateId : Option Nat := none
deriving DecidableEq, Repr

/-- Child totals published for the selected node (`NodeChildTotals`). -/
structure NodeChildTotals where
  pOut : Nat
  pIn : Nat
  pLit : Nat
  nOut : Nat
  nIn : Nat
deriving DecidableEq, Repr

/-- Data carried by a walker node. The source attaches one of three
interface shapes (`WalkerNodeData`, `WalkerPropData`, `WalkerLitData`) to
the dynamic `data` property; here all the possible fields appear as
optional fields of one record, absent fields being `none`, which mirrors
reading an unset property of a plain object. The `outFilter`/`inFilter`
properties of the source carry a `TripleFilter` on entity nodes and a
`LinkedNodeFilter` on property-group nodes; the two typings get separate
fields here (`outTripleFilter` vs `outLinkedFilter`), and a node only ever
uses the pair matching its variant. The `type` property of
`WalkerLitData` is called `litType` (`type` is reserved in Lean). -/
structure WData where
  originId : Option WId := none
  customColor : Option String := none
  selected : Bool := false
  expanded : Bool := false
  error : Option String := none
  uri : Option String := none
  sourceType : Option Nat := none
  classFlag : Option Bool := none
  sid : Option String := none
  tag : Option String := none
  value : Option String := none
  litType : Option String := none
  language : Option String := none
  litNumber : Option Int := none
  outTripleFilter : Option TripleFilter := none
  inTripleFilter : Option TripleFilter := none
  outLinkedFilter : Option LinkedNodeFilter := none
  inLinkedFilter : Option LinkedNodeFilter := none
  litFilter : Option LinkedLiteralFilter := none
  outTotal : Option Nat := none
  inTotal : Option Nat := none
  litTotal : Option Nat := none
deriving DecidableEq, Repr

/-- A node of the walker graph (ngx-graph `Node` restricted to the fields
the walker reads and writes). -/
structure GNode where
  id : WId
  label : String
  data : WData
deriving DecidableEq, Repr

/-- An edge of the walker graph. The source stores an id string
`E<source>_<target>` built by `buildEdgeId` at every construction site; the
id is recovered here as the endpoint pair `GEdge.eid`. -/
structure GEdge where
  source : WId
  target : WId
  label : String
  originId : WId
deriving DecidableEq, Repr

/-- Edge id, as the pair of endpoint ids encoded in `E<source>_<target>`. -/
def GEdge.eid (e : GEdge) : WId × WId := (e.source, e.target)

/-- A page of query results (`DataPage`): items plus the total count. -/
structure Page (α : Type) where
  items : List α
  total : Nat
deriving DecidableEq, Repr

/-- A triple group returned by the group queries (`TripleGroup`). -/
structure TripleGroup where
  predicateId : Nat
  predicateUri : String
  count : Nat
deriving DecidableEq, Repr

/-- An entity returned by the service (`UriNode`), with the fields the
walker reads. -/
structure UriNode where
  id : Nat
  uri : String
  label : String
  sourceType : Nat
  classFlag : Option Bool := none
  sid : Option String := none
  tag : Option String := none
deriving DecidableEq, Repr

/-- A literal triple returned by the service (`UriTriple`), with the
fields the walker reads. -/
structure UriTriple where
  id : Nat
  objectLiteral : Option String := none
  literalType : Option String := none
  literalLanguage : Option String := none
  literalNumber : Option Int := none
deriving DecidableEq, Repr

/-- The observable state of the walker: the published node and edge
collections, the loading and error channels, the selection, the root node
reference and the five filter slots with the child totals. -/
structure WState where
  nodes : List GNode
  edges : List GEdge
  loading : Bool
  error : Option String
  selectedId : Option WId
  rootId : Option WId
  nOutFilter : Option TripleFilter
  nInFilter : Option TripleFilter
  pOutFilter : Option LinkedNodeFilter
  pInFilter : Option LinkedNodeFilter
  pLitFilter : Option LinkedLiteralFilter
  childTotals : NodeChildTotals
deriving DecidableEq, Repr

/-- Initial state produced by the constructor: empty collections, no
loading, no error, nothing selected, zero totals. -/
def WState.init : WState :=
  { nodes := [], edges := [], loading := false, error := none,
    selectedId := none, rootId := none, nOutFilter := none, nInFilter := none,
    pOutFilter := none, pInFilter := none, pLitFilter := none,
    childTotals := ⟨0, 0, 0, 0, 0⟩ }

/-- Numeric data-node id recovered from a graph node id
(`getNodeNumericId`): the number after the first `N` of the id string, 0
when there is no `N` (the source indexOf returns -1 and the function
returns 0, which happens for literal ids `L..`). -/
def getNodeNumericId : WId → Nat
  | .n i => i
  | .p _ a => a
  | .l _ => 0

/-- Numeric id of the origin of a node: the root origin is the empty
string in the source, on which `getNodeNumericId` returns 0. -/
def getNodeNumericIdOfOrigin : Option WId → Nat
  | some i => getNodeNumericId i
  | none => 0

/-- Predicate id recovered from a property-group id
(`getPredicateNumericId`): the number between `P` and `N`, 0 when the id
has no `P`. -/
def getPredicateNumericId : WId → Nat
  | .p pid _ => pid
  | _ => 0

/-- Build an entity node id (`buildNodeId`). -/
def buildNodeId (i : Nat) : WId := .n i

/-- Build a property-group node id (`buildPropertyId`). -/
def buildPropertyId (predicateId nodeId : Nat) : WId := .p predicateId nodeId

/-- Build a literal node id (`buildLiteralId`). -/
def buildLiteralId (tripleId : Nat) : WId := .l tripleId

/-- Build an edge record; the source also stores the id string
`E<source>_<target>` via `buildEdgeId`, recovered here as `GEdge.eid`. -/
def buildEdge (source target : WId) (label : String) (originId : WId) : GEdge :=
  { source := source, target := target, label := label, originId := originId }

/-- Add an edge unless an edge with the same id, or with the inverse id
(endpoints swapped, computed in the source by splitting the id string at
its first underscore; endpoint ids contain no underscore) is already
present (`addEdgeIfAbsent`). -/
def addEdgeIfAbsent (edge : GEdge) (edges : List GEdge) : List GEdge :=
  if edges.any (fun e => e.eid == edge.eid) then edges
  else if edges.any (fun e => e.eid == (edge.target, edge.source)) then edges
  else edges ++ [edge]

/-- Message published on the error channel by `setError`: a truthy string
error is forwarded, anything else (a falsy value, including the empty
string, or a non-string) becomes the generic message. -/
def setErrorMessage : Option String → String
  | some s => if s = "" then "Walker error" else s
  | none => "Walker error"

/-- Reset the five filter slots and the child totals (`resetFilters`). -/
def resetFilters (st : WState) : WState :=
  { st with nOutFilter := none, nInFilter := none, pOutFilter := none,
            pInFilter := none, pLitFilter := none,
            childTotals := ⟨0, 0, 0, 0, 0⟩ }

/-- Clear the selected flag of the first node carrying it: the source
finds the previously selected node with `find` and sets its flag to
undefined. -/
def clearFirstSelected : List GNode → List GNode
  | [] => []
  | x :: xs =>
    if x.data.selected then { x with data := { x.data with selected := false } } :: xs
    else x :: clearFirstSelected xs

/-- Set the selected flag on the node found by id: the source mutates the
object returned by `find`. -/
def setFirstSelectedById (i : WId) : List GNode → List GNode
  | [] => []
  | x :: xs =>
    if x.id == i then { x with data := { x.data with selected := true } } :: xs
    else x :: setFirstSelectedById i xs

/-- Select a node by id (`selectNode`): when the id is null or names no
node in the working set, the published selection becomes null and the
filter slots are reset; otherwise the previously selected node is
deselected, the found node is flagged and published, and the filter slots
appropriate to its variant are republished. -/
def selectNode (st : WState) (idOpt : Option WId) : WState :=
  match idOpt.bind (fun i => st.nodes.find? (fun n => n.id == i)) with
  | none => resetFilters { st with selectedId := none }
  | some node =>
    let st1 := { st with
      nodes := setFirstSelectedById node.id (clearFirstSelected st.nodes),
      selectedId := some node.id }
    match node.id with
    | .n _ =>
      { st1 with
        nOutFilter := node.data.outTripleFilter,
        nInFilter := node.data.inTripleFilter,
        pOutFilter := none, pInFilter := none, pLitFilter := none,
        childTotals := ⟨0, 0, 0, node.data.outTotal.getD 0, node.data.inTotal.getD 0⟩ }
    | .p _ _ =>
      { st1 with
        nOutFilter := none, nInFilter := none,
        pOutFilter := node.data.outLinkedFilter,
        pInFilter := node.data.inLinkedFilter,
        pLitFilter := node.data.litFilter,
        childTotals := ⟨node.data.outTotal.getD 0, node.data.inTotal.getD 0,
                        node.data.litTotal.getD 0, 0, 0⟩ }
    | .l _ => resetFilters st1

/-- Recursive descendant removal (`removeDescendantNodes`): remove every
node whose origin id matches the head of the worklist, then recurse with
the ids of the removed nodes appended to the worklist, and collect all the
removed ids. The source recurses once per removed id; the worklist renders
the same computation with a terminating measure, removing the same nodes
and collecting the same ids. -/
def removeDescAux : List WId → List GNode → List GNode × List WId
  | [], nodes => (nodes, [])
  | o :: os, nodes =>
    let children := nodes.filter (fun n => n.data.originId == some o)
    let rest := nodes.filter (fun n => !(n.data.originId == some o))
    let r := removeDescAux (os ++ children.map GNode.id) rest
    (r.1, children.map GNode.id ++ r.2)
termination_by ws nodes => 2 * nodes.length + ws.length
decreasing_by
  simp only [List.length_append, List.length_map, List.length_cons]
  have h : ∀ l : List GNode,
      (l.filter (fun n => n.data.originId == some o)).length
        + (l.filter (fun n => !(n.data.originId == some o))).length = l.length := by
    intro l
    induction l with
    | nil => rfl
    | cons a t ih =>
      cases hh : a.data.originId == some o <;>
        simp [List.filter_cons, hh] <;> omega
  have := h nodes
  omega

/-- Remove all the children of the given origin node (`removeChildren`):
remove the origin descendants, then every edge one of whose encoded
endpoint ids is among the removed ids (`getEdgeEndIds` splits the edge id
at the first underscore), and re-select the root when the removed subtree
contained the selection. The source reads the root through a non-null
assertion; an absent root is passed through as a null selection. -/
def removeChildren (originId : WId) (st : WState) : WState :=
  let r := removeDescAux [originId] st.nodes
  let edges := st.edges.filter (fun e => !(r.2.contains e.source || r.2.contains e.target))
  let st1 := { st with nodes := r.1, edges := edges }
  match st.selectedId with
  | some sel => if r.2.contains sel then selectNode st1 st1.rootId else st1
  | none => st1

/-- Update the node with the given id in the list. The source mutates the
single node object held by reference in the array; ids are unique in the
working set (spec section 3 invariant). -/
def updateNode (nodes : List GNode) (i : WId) (f : GNode → GNode) : List GNode :=
  nodes.map (fun x => if x.id == i then f x else x)

/-- Merge of an optional field on `Object.assign`: a key present on the
override replaces the key of the base. -/
def overrideOpt {α : Type} : Option α → Option α → Option α
  | some v, _ => some v
  | none, base => base

/-- Merge a partial update into a `TripleFilter` (`Object.assign`). -/
def assignTripleFilter (base : TripleFilter) (ov : TripleFilterUpdate) : TripleFilter :=
  { pageNumber := ov.pageNumber.getD base.pageNumber,
    pageSize := ov.pageSize.getD base.pageSize,
    subjectId := overrideOpt ov.subjectId base.subjectId,
    objectId := overrideOpt ov.objectId base.objectId }

/-- Merge a partial update into a `LinkedNodeFilter` (`Object.assign`). -/
def assignLinkedNodeFilter (base : LinkedNodeFilter) (ov : LinkedNodeFilterUpdate) :
    LinkedNodeFilter :=
  { pageNumber := ov.pageNumber.getD base.pageNumber,
    pageSize := ov.pageSize.getD base.pageSize,
    otherNodeId := overrideOpt ov.otherNodeId base.otherNodeId,
    predicateId := overrideOpt ov.predicateId base.predicateId,
    isObject := overrideOpt ov.isObject base.isObject }

/-- Merge a partial update into a `LinkedLiteralFilter` (`Object.assign`). -/
def assignLinkedLiteralFilter (base : LinkedLiteralFilter)
    (ov : LinkedLiteralFilterUpdate) : LinkedLiteralFilter :=
  { pageNumber := ov.pageNumber.getD base.pageNumber,
    pageSize := ov.pageSize.getD base.pageSize,
    subjectId := overrideOpt ov.subjectId base.subjectId,
    predicateId := overrideOpt ov.predicateId base.predicateId }

/-- Effective outbound filter of `expandNode`: with an override, the
retained filter of the node merged with the override and the subject id
forced to the numeric id of the node; without, a fresh default filter.
Entity nodes always carry their filter; a missing one falls back to the
default page. -/
def expandNodeOutFilter (pageSize nid : Nat) (node : GNode) :
    Option TripleFilterUpdate → TripleFilter
  | some ov =>
    { assignTripleFilter (node.data.outTripleFilter.getD
        { pageNumber := 1, pageSize := pageSize }) ov with subjectId := some nid }
  | none => { pageNumber := 1, pageSize := pageSize, subjectId := some nid }

/-- Effective inbound filter of `expandNode`: like the outbound one with
the object id forced to the numeric id of the node. -/
def expandNodeInFilter (pageSize nid : Nat) (node : GNode) :
    Option TripleFilterUpdate → TripleFilter
  | some ov =>
    { assignTripleFilter (node.data.inTripleFilter.getD
        { pageNumber := 1, pageSize := pageSize }) ov with objectId := some nid }
  | none => { pageNumber := 1, pageSize := pageSize, objectId := some nid }

/-- Build a property-group node from a triple group (`buildPropertyNode`):
id `P<predicate>N<anchor>` anchored at the numeric id of the source node,
label the group count, origin the source node. -/
def buildPropertyNode (pageSize : Nat) (sourceId : WId) (group : TripleGroup) : GNode :=
  let nid := getNodeNumericId sourceId
  { id := buildPropertyId group.predicateId nid,
    label := toString group.count,
    data := { originId := some sourceId,
              uri := some group.predicateUri,
              customColor := some "#FF5619",
              outLinkedFilter := some { pageNumber := 1, pageSize := pageSize,
                                        otherNodeId := some nid,
                                        predicateId := some group.predicateId },
              inLinkedFilter := some { pageNumber := 1, pageSize := pageSize,
                                       otherNodeId := some nid,
                                       predicateId := some group.predicateId },
              litFilter := some { pageNumber := 1, pageSize := pageSize,
                                  predicateId := some group.predicateId } } }

/-- One outbound group merge of `expandNode`: the property node is pushed,
with its edge from the expanded node, only when no node in the working set
carries its direct id or the alias id computed from the origin of the
origin of the expanded node. -/
def expandOutStep (pageSize : Nat) (nodeId : WId) (nodeOriginId : Option WId)
    (acc : List GNode × List GEdge) (group : TripleGroup) : List GNode × List GEdge :=
  let prop := buildPropertyNode pageSize nodeId group
  let aliasId := buildPropertyId group.predicateId (getNodeNumericIdOfOrigin nodeOriginId)
  if acc.1.any (fun n => n.id == prop.id || n.id == aliasId) then acc
  else (acc.1 ++ [prop],
        addEdgeIfAbsent (buildEdge nodeId prop.id group.predicateUri nodeId) acc.2)

/-- Outbound merge loop of `expandNode`. -/
def expandOutFold (pageSize : Nat) (nodeId : WId) (nodeOriginId : Option WId)
    (groups : List TripleGroup) (acc : List GNode × List GEdge) :
    List GNode × List GEdge :=
  groups.foldl (expandOutStep pageSize nodeId nodeOriginId) acc

/-- Test of the inbound dedup regular expression
`^EP<predicate>N[0-9]+_<target>$`: the source endpoint is a property group
with the given predicate, anchored anywhere, and the target endpoint is
the expanded node. -/
def inboundEdgePattern (predicateId : Nat) (targetId : WId) (e : GEdge) : Bool :=
  match e.source with
  | .p pid _ => pid == predicateId && e.target == targetId
  | _ => false

/-- Edge-id form of the inbound dedup test: the test of
`inboundEdgePattern` only depends on the encoded endpoint pair. -/
def inboundPatternEid (predicateId : Nat) (targetId : WId) (q : WId × WId) : Bool :=
  match q.1 with
  | .p pid _ => pid == predicateId && q.2 == targetId
  | _ => false

/-- One inbound group merge of `expandNode`: when some edge already links
a property group with this predicate into the expanded node, nothing is
added; otherwise the property node is pushed if absent and the edge into
the expanded node is added if absent. -/
def expandInStep (pageSize : Nat) (nodeId : WId)
    (acc : List GNode × List GEdge) (group : TripleGroup) : List GNode × List GEdge :=
  let p := buildPropertyNode pageSize nodeId group
  let edge := buildEdge p.id nodeId group.predicateUri nodeId
  if acc.2.any (inboundEdgePattern group.predicateId nodeId) then acc
  else ((if acc.1.any (fun n => n.id == p.id) then acc.1 else acc.1 ++ [p]),
        addEdgeIfAbsent edge acc.2)

/-- Inbound merge loop of `expandNode`. -/
def expandInFold (pageSize : Nat) (nodeId : WId) (groups : List TripleGroup)
    (acc : List GNode × List GEdge) : List GNode × List GEdge :=
  groups.foldl (expandInStep pageSize nodeId) acc

/-- Update applied to the expanded node on a successful `expandNode`:
mark expanded and store the effective filters. -/
def setExpandedFilters (outf inf : TripleFilter) (x : GNode) : GNode :=
  { x with data := { x.data with
      expanded := true, outTripleFilter := some outf, inTripleFilter := some inf } }

/-- Update storing the outbound total on the expanded node. -/
def setOutTotal (t : Nat) (x : GNode) : GNode :=
  { x with data := { x.data with outTotal := some t } }

/-- Update storing the inbound total on the expanded node. -/
def setInTotal (t : Nat) (x : GNode) : GNode :=
  { x with data := { x.data with inTotal := some t } }

/-- Successful completion of `expandNode`: both joined group queries
resolved. The filters are computed, loading starts (clearing the error
channel), the node is marked expanded and its filters stored, previous
children are removed, the outbound and inbound groups are merged with the
direction totals, the collections are published and loading completes. -/
def expandNodeNext (pageSize : Nat) (node : GNode)
    (outOv inOv : Option TripleFilterUpdate) (outs ins : Page TripleGroup)
    (st : WState) : WState :=
  let nid := getNodeNumericId node.id
  let outf := expandNodeOutFilter pageSize nid node outOv
  let inf := expandNodeInFilter pageSize nid node inOv
  let st1 := { st with error := none, loading := true }
  let st2 := { st1 with nodes := updateNode st1.nodes node.id (setExpandedFilters outf inf) }
  let st3 := removeChildren node.id st2
  let st4 := { st3 with nodes := updateNode st3.nodes node.id (setOutTotal outs.total) }
  let a1 := expandOutFold pageSize node.id node.data.originId outs.items (st4.nodes, st4.edges)
  let ns2 := updateNode a1.1 node.id (setInTotal ins.total)
  let a2 := expandInFold pageSize node.id ins.items (ns2, a1.2)
  { st4 with nodes := a2.1, edges := a2.2, loading := false }

/-- Failed completion of `expandNode`: one of the joined queries rejected.
The node error flag is set, the unchanged node list is republished and the
error is published. The completion callback that clears the loading flag
never runs after an error notification, so the loading flag stays set. -/
def expandNodeErrNext (node : GNode) (e : Option String) (st : WState) : WState :=
  { st with
    loading := true,
    nodes := updateNode st.nodes node.id (fun x =>
      { x with data := { x.data with error := some "Error loading properties" } }),
    error := some (setErrorMessage e) }

/-- Effective outbound filter of `expandProperty`: the retained filter
merged with the override, the role flag forced to object. -/
def expandPropOutFilter (pageSize : Nat) (node : GNode)
    (ov : Option LinkedNodeFilterUpdate) : LinkedNodeFilter :=
  { assignLinkedNodeFilter (node.data.outLinkedFilter.getD
      { pageNumber := 1, pageSize := pageSize }) (ov.getD {}) with isObject := some true }

/-- Effective inbound filter of `expandProperty`: the retained filter
merged with the override, the role flag forced to subject. -/
def expandPropInFilter (pageSize : Nat) (node : GNode)
    (ov : Option LinkedNodeFilterUpdate) : LinkedNodeFilter :=
  { assignLinkedNodeFilter (node.data.inLinkedFilter.getD
      { pageNumber := 1, pageSize := pageSize }) (ov.getD {}) with isObject := some false }

/-- Effective literal filter of `expandProperty`: the retained filter
merged with the override, the subject id and predicate id re-derived from
the node id. -/
def expandPropLitFilter (pageSize : Nat) (node : GNode)
    (ov : Option LinkedLiteralFilterUpdate) : LinkedLiteralFilter :=
  { assignLinkedLiteralFilter (node.data.litFilter.getD
      { pageNumber := 1, pageSize := pageSize }) (ov.getD {}) with
    subjectId := some (getNodeNumericId node.id),
    predicateId := some (getPredicateNumericId node.id) }

/-- Build an entity node from a linked entity (`buildNonLiteralNode`). -/
def buildNonLiteralNode (pageSize : Nat) (sourceId : WId) (node : UriNode) : GNode :=
  let nid := getNodeNumericId sourceId
  { id := buildNodeId node.id,
    label := node.label,
    data := { originId := some sourceId,
              customColor := some "#80ff95",
              uri := some node.uri,
              sourceType := some node.sourceType,
              classFlag := node.classFlag,
              sid := node.sid,
              tag := node.tag,
              outTripleFilter := some { pageNumber := 0, pageSize := pageSize,
                                        subjectId := some nid },
              inTripleFilter := some { pageNumber := 0, pageSize := pageSize,
                                       objectId := some nid } } }

/-- Display label of a literal (`buildLiteralLabel`): the value truncated
to the configured maximum length with an ellipsis; a zero maximum is falsy
and disables truncation. -/
def buildLiteralLabel (maxLiteralLen : Nat) (triple : UriTriple) : String :=
  let value := triple.objectLiteral.getD ""
  if maxLiteralLen ≠ 0 ∧ value.length > maxLiteralLen then
    (value.take maxLiteralLen) ++ "…"
  else value

/-- Build a literal node from a triple (`buildLiteralNode`): the datatype
of the triple is stored under the `type` property (`litType` here). -/
def buildLiteralNode (maxLiteralLen : Nat) (sourceId : WId) (triple : UriTriple) : GNode :=
  { id := buildLiteralId triple.id,
    label := buildLiteralLabel maxLiteralLen triple,
    data := { originId := some sourceId,
              customColor := some "#ebe2e0",
              value := some (triple.objectLiteral.getD ""),
              litType := triple.literalType,
              language := triple.literalLanguage,
              litNumber := triple.literalNumber } }

/-- One outbound entity merge of `expandProperty`: push the entity node if
absent, then always add the group-to-entity edge if absent. -/
def expandPropOutStep (pageSize : Nat) (nodeId : WId)
    (acc : List GNode × List GEdge) (child : UriNode) : List GNode × List GEdge :=
  let obj := buildNonLiteralNode pageSize nodeId child
  ((if acc.1.any (fun n => n.id == obj.id) then acc.1 else acc.1 ++ [obj]),
   addEdgeIfAbsent (buildEdge nodeId obj.id "" nodeId) acc.2)

/-- One inbound entity merge of `expandProperty`: push the entity node if
absent, then add the entity-to-group edge if absent. -/
def expandPropInStep (pageSize : Nat) (nodeId : WId)
    (acc : List GNode × List GEdge) (child : UriNode) : List GNode × List GEdge :=
  let subj := buildNonLiteralNode pageSize nodeId child
  ((if acc.1.any (fun n => n.id == subj.id) then acc.1 else acc.1 ++ [subj]),
   addEdgeIfAbsent (buildEdge subj.id nodeId "" nodeId) acc.2)

/-- One literal merge of `expandProperty`: push the literal node if
absent, then add the group-to-literal edge if absent. The source labels
the edge with `lit.data.literalType || ''`; `WalkerLitData` stores the
datatype under `type` and has no `literalType` property, so that read
yields undefined and the label is always the empty string. -/
def expandPropLitStep (pageSize maxLiteralLen : Nat) (nodeId : WId)
    (acc : List GNode × List GEdge) (triple : UriTriple) : List GNode × List GEdge :=
  let lit := buildLiteralNode maxLiteralLen nodeId triple
  ((if acc.1.any (fun n => n.id == lit.id) then acc.1 else acc.1 ++ [lit]),
   addEdgeIfAbsent (buildEdge nodeId lit.id "" nodeId) acc.2)

/-- Successful completion of `expandProperty`: the three joined queries
resolved. Mirrors `expandNodeNext` with outbound entities, inbound
entities and literals. -/
def expandPropertyNext (pageSize maxLiteralLen : Nat) (node : GNode)
    (outOv inOv : Option LinkedNodeFilterUpdate)
    (litOv : Option LinkedLiteralFilterUpdate)
    (outs ins : Page UriNode) (lits : Page UriTriple) (st : WState) : WState :=
  let outf := expandPropOutFilter pageSize node outOv
  let inf := expandPropInFilter pageSize node inOv
  let litf := expandPropLitFilter pageSize node litOv
  let st1 := { st with error := none, loading := true }
  let st2 := { st1 with nodes := updateNode st1.nodes node.id (fun x =>
    { x with data := { x.data with
        expanded := true, outLinkedFilter := some outf, inLinkedFilter := some inf,
        litFilter := some litf } }) }
  let st3 := removeChildren node.id st2
  let st4 := { st3 with nodes := updateNode st3.nodes node.id (fun x =>
    { x with data := { x.data with outTotal := some outs.total } }) }
  let a1 := outs.items.foldl (expandPropOutStep pageSize node.id) (st4.nodes, st4.edges)
  let ns2 := updateNode a1.1 node.id (fun x =>
    { x with data := { x.data with inTotal := some ins.total } })
  let a2 := ins.items.foldl (expandPropInStep pageSize node.id) (ns2, a1.2)
  let ns3 := updateNode a2.1 node.id (fun x =>
    { x with data := { x.data with litTotal := some lits.total } })
  let a3 := lits.items.foldl (expandPropLitStep pageSize maxLiteralLen node.id) (ns3, a2.2)
  { st4 with nodes := a3.1, edges := a3.2, loading := false }

/-- Failed completion of `expandProperty`: mirrors `expandNodeErrNext`
with the property error message; the loading flag stays set because the
completion callback never runs after an error. -/
def expandPropertyErrNext (node : GNode) (e : Option String) (st : WState) : WState :=
  { st with
    loading := true,
    nodes := updateNode st.nodes node.id (fun x =>
      { x with data := { x.data with error := some "Error loading nodes" } }),
    error := some (setErrorMessage e) }

/-- Root entity node constructed by `reset`: root color, empty origin,
fresh default filters; the label falls back to the uri when empty. -/
def rootNodeOf (pageSize : Nat) (n : UriNode) : GNode :=
  { id := buildNodeId n.id,
    label := if n.label == "" then n.uri else n.label,
    data := { originId := none,
              customColor := some "#F89427",
              uri := some n.uri,
              sourceType := some n.sourceType,
              outTripleFilter := some { pageNumber := 1, pageSize := pageSize },
              inTripleFilter := some { pageNumber := 1, pageSize := pageSize } } }

/-- Successful completion of `reset`: the working set becomes the single
root node with no edges, the root reference is stored and loading
completes. The expansion that `reset` triggers on the root is a separate
`expandNode` completion. -/
def resetOkNext (pageSize : Nat) (n : UriNode) (st : WState) : WState :=
  { st with nodes := [rootNodeOf pageSize n], edges := [],
            rootId := some (buildNodeId n.id), error := none, loading := false }

/-- Failed completion of `reset`: the error is published; the loading flag
stays set because the completion callback never runs after an error. -/
def resetErrNext (e : Option String) (st : WState) : WState :=
  { st with loading := true, error := some (setErrorMessage e) }

/-- Collapse branch of `toggleNode` on an expanded node: remove the origin
subtree and clear the expanded flag of the node; the expansion branch on a
collapsed node is the appropriate expand operation. -/
def toggleCollapseNext (node : GNode) (st : WState) : WState :=
  let st1 := removeChildren node.id st
  { st1 with nodes := updateNode st1.nodes node.id (fun x =>
      { x with data := { x.data with expanded := false } }) }

/-- One step of the walker: each public operation settling, with the query
outcome as a parameter. The expansion branch of `toggleNode` on a
collapsed node is the corresponding expand constructor with no
overrides; a collapsed literal node is a no-op. -/
inductive WStep : WState → WState → Prop where
  | resetOk (st : WState) (ps : Nat) (n : UriNode) :
      WStep st (resetOkNext ps n st)
  | resetErr (st : WState) (e : Option String) :
      WStep st (resetErrNext e st)
  | expandOk (st : WState) (ps : Nat) (node : GNode)
      (outOv inOv : Option TripleFilterUpdate) (outs ins : Page TripleGroup)
      (h : node ∈ st.nodes) :
      WStep st (expandNodeNext ps node outOv inOv outs ins st)
  | expandErr (st : WState) (node : GNode) (e : Option String)
      (h : node ∈ st.nodes) :
      WStep st (expandNodeErrNext node e st)
  | expandPropOk (st : WState) (ps maxLen : Nat) (node : GNode)
      (outOv inOv : Option LinkedNodeFilterUpdate)
      (litOv : Option LinkedLiteralFilterUpdate)
      (outs ins : Page UriNode) (lits : Page UriTriple)
      (h : node ∈ st.nodes) :
      WStep st (expandPropertyNext ps maxLen node outOv inOv litOv outs ins lits st)
  | expandPropErr (st : WState) (node : GNode) (e : Option String)
      (h : node ∈ st.nodes) :
      WStep st (expandPropertyErrNext node e st)
  | toggleCollapse (st : WState) (node : GNode)
      (h : node ∈ st.nodes) (hx : node.data.expanded = true) :
      WStep st (toggleCollapseNext node st)
  | select (st : WState) (i : Option WId) :
      WStep st (selectNode st i)

/-- A walker state reachable from the initial state by any sequence of
operations. -/
def WReachable (st : WState) : Prop :=
  Relation.ReflTransGen WStep WState.init st

/-- Two node lists carry the same ids and origin ids, nodewise: every
node of the first has a counterpart in the second with the same id and
the same origin id. Origin-chain reachability reads only these two
fields, so it transfers along this relation. -/
def SameOrig (ns ms : List GNode) : Prop :=
  ∀ y ∈ ns, ∃ z ∈ ms, z.id = y.id ∧ z.data.originId = y.data.originId

/-- Working-set core of a successful `expandNode` (the tail of
`expandNodeNext`): remove the previous children of the expanded node with
their edges, store the outbound total, merge the outbound groups, store
the inbound total and merge the inbound groups. `expandNodeNext` routes
through this core after marking the node expanded. -/
def expandCore (pageSize : Nat) (i : WId) (o : Option WId)
    (outs ins : Page TripleGroup) (nodes : List GNode) (edges : List GEdge) :
    List GNode × List GEdge :=
  let r := removeDescAux [i] nodes
  let e3 := edges.filter (fun e => !(r.2.contains e.source || r.2.contains e.target))
  let n4 := updateNode r.1 i (setOutTotal outs.total)
  let a1 := expandOutFold pageSize i o outs.items (n4, e3)
  let ns2 := updateNode a1.1 i (setInTotal ins.total)
  expandInFold pageSize i ins.items (ns2, a1.2)

/-! Concrete fixtures used by witnesses and counterexamples. -/

/-- Concrete property-group node `P7N1`: the group for predicate 7
anchored at entity 1, as built by the walker. -/
def sampleProp : GNode := buildPropertyNode 10 (WId.n 1) ⟨7, "ex:pred", 2⟩

/-- Concrete entity node `N1` with default filters. -/
def sampleEntity : GNode :=
  { id := WId.n 1, label := "one",
    data := { originId := none,
              outTripleFilter := some { pageNumber := 1, pageSize := 10 },
              inTripleFilter := some { pageNumber := 1, pageSize := 10 } } }

/-- Concrete selected entity node. -/
def sampleSelectedEntity : GNode :=
  { id := WId.n 1, label := "one", data := { originId := none, selected := true } }

/-- Concrete state holding only the selected entity. -/
def sampleSelectedState : WState :=
  { WState.init with nodes := [sampleSelectedEntity], selectedId := some (WId.n 1) }

/-- Concrete state holding only the property-group node. -/
def samplePropState : WState := { WState.init with nodes := [sampleProp] }

/-- Concrete state holding only the entity node. -/
def sampleEntityState : WState := { WState.init with nodes := [sampleEntity] }

/-- Concrete literal triple carrying a datatype. -/
def sampleTriple : UriTriple :=
  { id := 5, objectLiteral := some "hello", literalType := some "xsd:string" }

/-- Concrete expanded entity node with a property-group child. -/
def sampleParent : GNode :=
  { id := WId.n 1, label := "a", data := { originId := none, expanded := true } }

/-- Concrete property-group child of `sampleParent`. -/
def sampleChild : GNode :=
  { id := WId.p 7 1, label := "2", data := { originId := some (WId.n 1) } }

/-- Concrete two-node working set with the connecting edge. -/
def sampleToggleState : WState :=
  { WState.init with
    nodes := [sampleParent, sampleChild],
    edges := [buildEdge (WId.n 1) (WId.p 7 1) "p" (WId.n 1)] }

/-! Helper lemmas. -/

theorem setErrorMessage_ne_empty (e : Option String) : setErrorMessage e ≠ "" := by
  cases e with
  | none => simp [setErrorMessage]
  | some s =>
    simp only [setErrorMessage]
    split
    · simp
    · assumption

theorem updateNode_map_id (ns : List GNode) (i : WId) (f : GNode → GNode)
    (hf : ∀ x, (f x).id = x.id) :
    (updateNode ns i f).map GNode.id = ns.map GNode.id := by
  simp only [updateNode, List.map_map]
  apply List.map_congr_left
  intro x hx
  by_cases h : x.id = i <;> simp [h, hf]

theorem mem_updateNode (ns : List GNode) (i : WId) (f : GNode → GNode) (x : GNode) :
    x ∈ updateNode ns i f ↔ ∃ y ∈ ns, x = if y.id = i then f y else y := by
  simp only [updateNode, List.mem_map]
  constructor
  · rintro ⟨y, hy, rfl⟩
    exact ⟨y, hy, by by_cases h : y.id = i <;> simp [h]⟩
  · rintro ⟨y, hy, rfl⟩
    exact ⟨y, hy, by by_cases h : y.id = i <;> simp [h]⟩

theorem eq_of_mem_of_nodup_ids {ns : List GNode} {y z : GNode}
    (hnd : (ns.map GNode.id).Nodup) (hy : y ∈ ns) (hz : z ∈ ns) (hid : y.id = z.id) :
    y = z := by
  induction ns with
  | nil => cases hy
  | cons a t ih =>
    simp only [List.map_cons, List.nodup_cons] at hnd
    rcases List.mem_cons.mp hy with rfl | hy'
    · rcases List.mem_cons.mp hz with rfl | hz'
      · rfl
      · exact absurd (hid.symm ▸ List.mem_map_of_mem GNode.id hz') hnd.1
    · rcases List.mem_cons.mp hz with rfl | hz'
      · exact absurd (hid ▸ List.mem_map_of_mem GNode.id hy') hnd.1
      · exact ih hnd.2 hy' hz'

/-- C1: for every Walker operation that issues queries, the claim states
the published loading flag is false once the operation settles in both
outcomes. In the source the flag is cleared only by the completion
callback, and an error notification is terminal without completion, so
after a failed query the flag remains true; after success it is false.
This theorem evaluates all the settled continuations. -/
theorem c1_loading_flag_after_settle (st : WState) (node : GNode) (e : Option String)
    (ps maxLen : Nat) (n : UriNode) (outOv inOv : Option TripleFilterUpdate)
    (pOv qOv : Option LinkedNodeFilterUpdate) (lOv : Option LinkedLiteralFilterUpdate)
    (outs ins : Page TripleGroup) (pouts pins : Page UriNode) (plits : Page UriTriple) :
    (expandNodeErrNext node e st).loading = true ∧
    (expandPropertyErrNext node e st).loading = true ∧
    (resetErrNext e st).loading = true ∧
    (expandNodeNext ps node outOv inOv outs ins st).loading = false ∧
    (expandPropertyNext ps maxLen node pOv qOv lOv pouts pins plits st).loading = false ∧
    (resetOkNext ps n st).loading = false :=
  ⟨rfl, rfl, rfl, rfl, rfl, rfl⟩

/-- C2: during the outbound merge of `expandNode` a property-group node
with direct id `P<predicate>N<entity>` is added exactly when no node of
the working set carries the direct id or the alias id computed from the
numeric id of the origin of the origin of the expanded node; hence a
group already present under either id is reused rather than duplicated. -/
theorem c2_alias_dedup (ps : Nat) (nodeId : WId) (nodeOriginId : Option WId)
    (g : TripleGroup) (ns : List GNode) (es : List GEdge) :
    ((∃ x ∈ ns, x.id = buildPropertyId g.predicateId (getNodeNumericId nodeId) ∨
        x.id = buildPropertyId g.predicateId (getNodeNumericIdOfOrigin nodeOriginId)) →
      (expandOutStep ps nodeId nodeOriginId (ns, es) g).1 = ns) ∧
    (¬(∃ x ∈ ns, x.id = buildPropertyId g.predicateId (getNodeNumericId nodeId) ∨
        x.id = buildPropertyId g.predicateId (getNodeNumericIdOfOrigin nodeOriginId)) →
      (expandOutStep ps nodeId nodeOriginId (ns, es) g).1
        = ns ++ [buildPropertyNode ps nodeId g]) := by
  have hid : (buildPropertyNode ps nodeId g).id
      = buildPropertyId g.predicateId (getNodeNumericId nodeId) := rfl
  constructor
  · intro h
    simp only [expandOutStep, hid]
    rw [if_pos]
    simp only [List.any_eq_true, beq_iff_eq, Bool.or_eq_true]
    rcases h with ⟨x, hx, h | h⟩
    · exact ⟨x, hx, Or.inl (by simp [hid, h])⟩
    · exact ⟨x, hx, Or.inr (by simp [h])⟩
  · intro h
    simp only [expandOutStep, hid]
    rw [if_neg]
    intro hc
    simp only [List.any_eq_true, Bool.or_eq_true, beq_iff_eq] at hc
    rcases hc with ⟨x, hx, h1 | h1⟩
    · exact h ⟨x, hx, Or.inl (by simpa [hid] using h1)⟩
    · exact h ⟨x, hx, Or.inr h1⟩

/-- C2 witness: concrete instance where the direct id is present and the
group is not re-added, applying the dedup theorem. -/
theorem c2_alias_dedup_witness :
    (∃ x ∈ [buildPropertyNode 10 (WId.n 1) ⟨7, "p", 2⟩],
        x.id = buildPropertyId (7 : Nat) (getNodeNumericId (WId.n 1)) ∨
        x.id = buildPropertyId (7 : Nat) (getNodeNumericIdOfOrigin none)) ∧
    (expandOutStep 10 (WId.n 1) none ([buildPropertyNode 10 (WId.n 1) ⟨7, "p", 2⟩], []) ⟨7, "p", 2⟩).1
      = [buildPropertyNode 10 (WId.n 1) ⟨7, "p", 2⟩] := by
  refine ⟨⟨buildPropertyNode 10 (WId.n 1) ⟨7, "p", 2⟩, by simp, Or.inl rfl⟩, ?_⟩
  exact (c2_alias_dedup 10 (WId.n 1) none ⟨7, "p", 2⟩
    [buildPropertyNode 10 (WId.n 1) ⟨7, "p", 2⟩] []).1
    ⟨buildPropertyNode 10 (WId.n 1) ⟨7, "p", 2⟩, by simp, Or.inl rfl⟩

/-- C5 counterexample: in `expandProperty` the anchor id of the effective
outbound filter is taken from the override when the override carries one.
The node `P7N1` retains anchor 1, the override carries 999, and the
effective filter carries 999, while the claim requires the anchor to be
re-derived from the node id (1) regardless of the override. -/
theorem c5_counterexample :
    (expandPropOutFilter 10 sampleProp (some { otherNodeId := some 999 })).otherNodeId
      = some 999 ∧
    getNodeNumericId sampleProp.id = 1 := ⟨rfl, rfl⟩

/-- C5 (amended): in `expandNode` the effective filters are the retained
filters with the override keys replacing matching keys and the anchor id
(subject outbound, object inbound) always forced from the node id; in
`expandProperty` the role flag of the outbound and inbound filters and
the subject and predicate ids of the literal filter are re-derived, while
the anchor and predicate keys of the outbound and inbound filters follow
the retained filter and any override. -/
theorem c5_filter_merge (ps nid : Nat) (node : GNode) (ov : TripleFilterUpdate)
    (pov : LinkedNodeFilterUpdate) (lov : LinkedLiteralFilterUpdate) :
    (expandNodeOutFilter ps nid node (some ov)).subjectId = some nid ∧
    (expandNodeInFilter ps nid node (some ov)).objectId = some nid ∧
    (∀ v, ov.pageNumber = some v →
      (expandNodeOutFilter ps nid node (some ov)).pageNumber = v) ∧
    (ov.pageNumber = none →
      (expandNodeOutFilter ps nid node (some ov)).pageNumber
        = (node.data.outTripleFilter.getD { pageNumber := 1, pageSize := ps }).pageNumber) ∧
    (expandPropOutFilter ps node (some pov)).isObject = some true ∧
    (expandPropInFilter ps node (some pov)).isObject = some false ∧
    (expandPropLitFilter ps node (some lov)).subjectId = some (getNodeNumericId node.id) ∧
    (expandPropLitFilter ps node (some lov)).predicateId
      = some (getPredicateNumericId node.id) ∧
    (∀ v, pov.otherNodeId = some v →
      (expandPropOutFilter ps node (some pov)).otherNodeId = some v) ∧
    (pov.otherNodeId = none →
      (expandPropOutFilter ps node (some pov)).otherNodeId
        = (node.data.outLinkedFilter.getD { pageNumber := 1, pageSize := ps }).otherNodeId) := by
  refine ⟨rfl, rfl, ?_, ?_, rfl, rfl, rfl, rfl, ?_, ?_⟩
  · intro v hv
    simp [expandNodeOutFilter, assignTripleFilter, hv]
  · intro hv
    simp [expandNodeOutFilter, assignTripleFilter, hv]
  · intro v hv
    simp [expandPropOutFilter, assignLinkedNodeFilter, overrideOpt, hv]
  · intro hv
    simp [expandPropOutFilter, assignLinkedNodeFilter, overrideOpt, hv]

/-- C5 witness: the merge theorem applied at concrete inputs, with the
implication premises discharged. -/
theorem c5_filter_merge_witness :
    (expandNodeOutFilter 10 1 sampleEntity (some { pageNumber := some 3 })).pageNumber = 3 ∧
    (expandPropOutFilter 10 sampleProp (some { otherNodeId := some 999 })).otherNodeId
      = some 999 := by
  have h1 := c5_filter_merge 10 1 sampleEntity { pageNumber := some 3 } {} {}
  have h2 := c5_filter_merge 10 1 sampleProp {} { otherNodeId := some 999 } {}
  exact ⟨h1.2.2.1 3 rfl, h2.2.2.2.2.2.2.2.2.1 999 rfl⟩

theorem removeDescAux_nil (ns : List GNode) : removeDescAux [] ns = (ns, []) := by
  simp [removeDescAux]

theorem removeDescAux_cons_of_no_children (o : WId) (os : List WId) (ns : List GNode)
    (h : ∀ n ∈ ns, ¬(n.data.originId = some o)) :
    removeDescAux (o :: os) ns = removeDescAux os ns := by
  rw [removeDescAux]
  have hc : ns.filter (fun n => n.data.originId == some o) = [] := by
    rw [List.filter_eq_nil_iff]
    intro a ha
    simpa using h a ha
  have hr : ns.filter (fun n => !(n.data.originId == some o)) = ns := by
    rw [List.filter_eq_self]
    intro a ha
    simpa using h a ha
  simp only [hc, hr, List.map_nil, List.append_nil, List.nil_append]

theorem removeChildren_of_no_children (o : WId) (st : WState)
    (h : ∀ n ∈ st.nodes, ¬(n.data.originId = some o)) :
    removeChildren o st = st := by
  unfold removeChildren
  rw [removeDescAux_cons_of_no_children o [] st.nodes h, removeDescAux_nil]
  simp only [List.contains_nil, Bool.or_self, Bool.not_false, List.filter_true]
  split
  · rw [if_neg Bool.false_ne_true]
  · rfl

/-- C6: when a joined query of `expandNode` rejects on a node whose
expanded flag is not set, the flag stays false, the node error flag is
set, a non-empty message is published on the error channel, and the node
and edge collections keep exactly the members they had (the expanded node
only gaining its error flag). -/
theorem c6_expand_error_state (st : WState) (node : GNode) (e : Option String)
    (hmem : node ∈ st.nodes) (hexp : node.data.expanded = false)
    (hnd : (st.nodes.map GNode.id).Nodup) :
    (expandNodeErrNext node e st).edges = st.edges ∧
    (expandNodeErrNext node e st).nodes.map GNode.id = st.nodes.map GNode.id ∧
    (∀ x ∈ (expandNodeErrNext node e st).nodes, x.id = node.id →
      x.data.expanded = false ∧ x.data.error = some "Error loading properties") ∧
    (∀ x ∈ (expandNodeErrNext node e st).nodes, x.id ≠ node.id → x ∈ st.nodes) ∧
    (∀ x ∈ st.nodes, x.id ≠ node.id → x ∈ (expandNodeErrNext node e st).nodes) ∧
    (∃ m, (expandNodeErrNext node e st).error = some m ∧ m ≠ "") := by
  refine ⟨rfl, updateNode_map_id _ _ _ (fun x => rfl), ?_, ?_, ?_, ?_⟩
  · intro x hx hid
    rcases (mem_updateNode _ _ _ _).mp hx with ⟨y, hy, rfl⟩
    by_cases h : y.id = node.id
    · have hyn : y = node := eq_of_mem_of_nodup_ids hnd hy hmem h
      subst hyn
      rw [if_pos rfl]
      exact ⟨hexp, rfl⟩
    · rw [if_neg h] at hid
      exact absurd hid h
  · intro x hx hid
    rcases (mem_updateNode _ _ _ _).mp hx with ⟨y, hy, rfl⟩
    by_cases h : y.id = node.id
    · rw [if_pos h] at hid
      exact absurd h hid
    · rw [if_neg h]
      exact hy
  · intro x hx hid
    refine (mem_updateNode _ _ _ _).mpr ⟨x, hx, ?_⟩
    simp [hid]
  · exact ⟨setErrorMessage e, rfl, setErrorMessage_ne_empty e⟩

/-- C6 witness: the error-state theorem applied to a concrete one-node
working set with the query rejecting. -/
theorem c6_expand_error_witness :
    (expandNodeErrNext sampleEntity none sampleEntityState).edges
      = sampleEntityState.edges ∧
    (∃ m, (expandNodeErrNext sampleEntity none sampleEntityState).error
      = some m ∧ m ≠ "") := by
  have h := c6_expand_error_state sampleEntityState sampleEntity none
    (by simp [sampleEntityState, WState.init]) rfl
    (by simp [sampleEntityState, WState.init])
  exact ⟨h.1, h.2.2.2.2.2⟩

/-- C8: the claim states the group-to-literal edge label equals the
datatype of the literal when present. The source computes the label as
`lit.data.literalType || ''`, but `buildLiteralNode` stores the datatype
under the `type` property and `WalkerLitData` has no `literalType`
property, so the read yields undefined and the label is always empty:
expanding `P7N1` with one literal carrying datatype `xsd:string` produces
the single edge `P7N1 → L5` with an empty label instead. -/
theorem c8_literal_edge_label :
    sampleTriple.literalType = some "xsd:string" ∧
    (expandPropertyNext 10 30 sampleProp none none none ⟨[], 0⟩ ⟨[], 0⟩
        ⟨[sampleTriple], 1⟩ samplePropState).edges.map GEdge.label = [""] ∧
    (expandPropertyNext 10 30 sampleProp none none none ⟨[], 0⟩ ⟨[], 0⟩
        ⟨[sampleTriple], 1⟩ samplePropState).edges.map GEdge.eid
      = [(sampleProp.id, WId.l 5)] := by
  refine ⟨rfl, ?_, ?_⟩ <;>
    simp [expandPropertyNext, removeChildren_of_no_children, updateNode,
      samplePropState, sampleProp, WState.init, buildPropertyNode,
      expandPropLitStep, buildLiteralNode, buildLiteralLabel, sampleTriple,
      addEdgeIfAbsent, buildEdge, GEdge.eid, buildLiteralId, buildPropertyId,
      expandPropOutFilter, expandPropInFilter, expandPropLitFilter,
      assignLinkedNodeFilter, assignLinkedLiteralFilter, overrideOpt,
      getNodeNumericId, getPredicateNumericId]

theorem clearFirstSelected_map_id (ns : List GNode) :
    (clearFirstSelected ns).map GNode.id = ns.map GNode.id := by
  induction ns with
  | nil => rfl
  | cons a t ih =>
    by_cases h : a.data.selected <;> simp [clearFirstSelected, h, ih]

theorem clearFirstSelected_not_selected (ns : List GNode)
    (h : (ns.filter (fun n => n.data.selected)).length ≤ 1) :
    ∀ x ∈ clearFirstSelected ns, x.data.selected = false := by
  induction ns with
  | nil => intro x hx; cases hx
  | cons a t ih =>
    by_cases ha : a.data.selected
    · intro x hx
      rw [clearFirstSelected, if_pos ha] at hx
      rcases List.mem_cons.mp hx with rfl | hx'
      · rfl
      · simp only [List.filter_cons, ha, if_pos, List.length_cons] at h
        have ht : t.filter (fun n => n.data.selected) = [] :=
          List.length_eq_zero.mp (by omega)
        by_contra hc
        have : x ∈ t.filter (fun n => n.data.selected) :=
          List.mem_filter.mpr ⟨hx', by simpa using hc⟩
        rw [ht] at this
        cases this
    · intro x hx
      rw [clearFirstSelected, if_neg ha] at hx
      rcases List.mem_cons.mp hx with rfl | hx'
      · simpa using ha
      · refine ih ?_ x hx'
        simpa [List.filter_cons, ha] using h

theorem setFirstSelectedById_spec (i : WId) (ns : List GNode)
    (hall : ∀ x ∈ ns, x.data.selected = false)
    (hnd : (ns.map GNode.id).Nodup) :
    ∀ x ∈ setFirstSelectedById i ns, (x.data.selected = true ↔ x.id = i) := by
  induction ns with
  | nil => intro x hx; cases hx
  | cons a t ih =>
    simp only [List.map_cons, List.nodup_cons] at hnd
    by_cases ha : a.id = i
    · intro x hx
      rw [setFirstSelectedById, if_pos (by simpa using ha)] at hx
      rcases List.mem_cons.mp hx with rfl | hx'
      · simpa using ha
      · have hxf : x.data.selected = false := hall x (List.mem_cons_of_mem a hx')
        have hxi : x.id ≠ i := by
          intro hc
          exact hnd.1 (ha.symm ▸ hc ▸ List.mem_map_of_mem GNode.id hx')
        simp [hxf, hxi]
    · intro x hx
      rw [setFirstSelectedById, if_neg (by simpa using ha)] at hx
      rcases List.mem_cons.mp hx with rfl | hx'
      · simp [hall x (List.mem_cons_self x t), ha]
      · exact ih (fun y hy => hall y (List.mem_cons_of_mem a hy)) hnd.2 x hx'

/-- C7 counterexample: the claim states every `selectNode` call clears the
selected flag of the previously selected node, yet passing null leaves the
flag set on the old node while only the published selection becomes null. -/
theorem c7_counterexample :
    (selectNode sampleSelectedState none).selectedId = none ∧
    ∃ x ∈ (selectNode sampleSelectedState none).nodes, x.data.selected = true := by
  refine ⟨rfl, sampleSelectedEntity, ?_, rfl⟩
  simp [selectNode, resetFilters, sampleSelectedState, WState.init]

/-- C7 (amended): when the id names a node of the working set, the
previously selected node is deselected, the named node is flagged and
published as the selection; when the id is null or absent, the published
selection becomes null and the five filter slots and child totals are
reset while the node flags are left untouched. -/
theorem c7_select_node (st : WState) (i : WId) :
    (st.nodes.find? (fun n => n.id == i) = none →
      (selectNode st (some i)).nodes = st.nodes ∧
      (selectNode st (some i)).selectedId = none ∧
      (selectNode st (some i)).nOutFilter = none ∧
      (selectNode st (some i)).nInFilter = none ∧
      (selectNode st (some i)).pOutFilter = none ∧
      (selectNode st (some i)).pInFilter = none ∧
      (selectNode st (some i)).pLitFilter = none ∧
      (selectNode st (some i)).childTotals = ⟨0, 0, 0, 0, 0⟩) ∧
    ((selectNode st none).nodes = st.nodes ∧
      (selectNode st none).selectedId = none ∧
      (selectNode st none).nOutFilter = none ∧
      (selectNode st none).nInFilter = none ∧
      (selectNode st none).pOutFilter = none ∧
      (selectNode st none).pInFilter = none ∧
      (selectNode st none).pLitFilter = none ∧
      (selectNode st none).childTotals = ⟨0, 0, 0, 0, 0⟩) ∧
    (∀ node, st.nodes.find? (fun n => n.id == i) = some node →
      (st.nodes.map GNode.id).Nodup →
      (st.nodes.filter (fun n => n.data.selected)).length ≤ 1 →
      (selectNode st (some i)).selectedId = some node.id ∧
      ∀ x ∈ (selectNode st (some i)).nodes,
        (x.data.selected = true ↔ x.id = node.id)) := by
  refine ⟨?_, ?_, ?_⟩
  · intro h
    simp [selectNode, h, resetFilters]
  · simp [selectNode, resetFilters]
  · intro node hfind hnd hsel
    have hclear := clearFirstSelected_not_selected st.nodes hsel
    have hndc : ((clearFirstSelected st.nodes).map GNode.id).Nodup := by
      rw [clearFirstSelected_map_id]; exact hnd
    have hspec := setFirstSelectedById_spec node.id (clearFirstSelected st.nodes)
      hclear hndc
    have hred : (Option.bind (some i) fun j => st.nodes.find? (fun n => n.id == j))
        = some node := hfind
    have hnodes : (selectNode st (some i)).nodes
        = setFirstSelectedById node.id (clearFirstSelected st.nodes) := by
      simp only [selectNode, hred]
      cases node.id <;> simp [resetFilters]
    have hsid : (selectNode st (some i)).selectedId = some node.id := by
      simp only [selectNode, hred]
      cases node.id <;> simp [resetFilters]
    exact ⟨hsid, fun x hx => hspec x (hnodes ▸ hx)⟩

/-- C7 witness: the amended selection theorem applied to a concrete
working set holding one selected node, re-selecting it by id. -/
theorem c7_select_node_witness :
    (selectNode sampleSelectedState (some (WId.n 1))).selectedId = some (WId.n 1) := by
  have h := (c7_select_node sampleSelectedState (WId.n 1)).2.2 sampleSelectedEntity
    (by simp [sampleSelectedState, WState.init, sampleSelectedEntity, List.find?])
    (by simp [sampleSelectedState, WState.init])
    (by simp [sampleSelectedState, WState.init, sampleSelectedEntity])
  exact h.1

/-- C10: in the inbound merge of `expandNode`, when some edge already
links a property group with the same predicate (anchored anywhere) into
the expanded node, neither the new edge nor the new property-group node
is added; and when the merge does add the inbound property-group node,
the edge into the expanded node is added with it. Stated over working
sets whose edges point at present nodes (every reachable working set
does). -/
theorem c10_inbound_dedup (ps : Nat) (nodeId : WId) (g : TripleGroup)
    (ns : List GNode) (es : List GEdge)
    (hclose : ∀ e ∈ es, ∃ x ∈ ns, x.id = e.target) :
    ((∃ e ∈ es, inboundEdgePattern g.predicateId nodeId e = true) →
      expandInStep ps nodeId (ns, es) g = (ns, es)) ∧
    (¬(∃ e ∈ es, inboundEdgePattern g.predicateId nodeId e = true) →
      ¬(∃ x ∈ ns, x.id = (buildPropertyNode ps nodeId g).id) →
      expandInStep ps nodeId (ns, es) g
        = (ns ++ [buildPropertyNode ps nodeId g],
           es ++ [buildEdge (buildPropertyNode ps nodeId g).id nodeId
                    g.predicateUri nodeId])) := by
  constructor
  · intro h
    have hb : es.any (inboundEdgePattern g.predicateId nodeId) = true := by
      rw [List.any_eq_true]
      rcases h with ⟨e, he, hp⟩
      exact ⟨e, he, hp⟩
    simp only [expandInStep]
    rw [if_pos hb]
  · intro h1 h2
    have hb : es.any (inboundEdgePattern g.predicateId nodeId) = false := by
      rw [Bool.eq_false_iff]
      intro hc
      rw [List.any_eq_true] at hc
      rcases hc with ⟨e, he, hp⟩
      exact h1 ⟨e, he, hp⟩
    have hn : (ns.any fun n => n.id == (buildPropertyNode ps nodeId g).id) = false := by
      rw [Bool.eq_false_iff]
      intro hc
      rw [List.any_eq_true] at hc
      rcases hc with ⟨x, hx, hp⟩
      exact h2 ⟨x, hx, by simpa using hp⟩
    have hadd : addEdgeIfAbsent (buildEdge (buildPropertyNode ps nodeId g).id nodeId
        g.predicateUri nodeId) es
        = es ++ [buildEdge (buildPropertyNode ps nodeId g).id nodeId
                   g.predicateUri nodeId] := by
      unfold addEdgeIfAbsent
      rw [if_neg, if_neg]
      · intro hc
        rw [List.any_eq_true] at hc
        rcases hc with ⟨e, he, hp⟩
        have hp' : e.eid = (nodeId, (buildPropertyNode ps nodeId g).id) := by
          simpa using hp
        have ht : e.target = (buildPropertyNode ps nodeId g).id := by
          have := congrArg Prod.snd hp'
          simpa [GEdge.eid] using this
        rcases hclose e he with ⟨x, hx, hid⟩
        exact h2 ⟨x, hx, ht ▸ hid⟩
      · intro hc
        rw [List.any_eq_true] at hc
        rcases hc with ⟨e, he, hp⟩
        have hp' : e.eid = ((buildPropertyNode ps nodeId g).id, nodeId) := by
          simpa using hp
        have hs : e.source = (buildPropertyNode ps nodeId g).id :=
          congrArg Prod.fst hp'
        have ht : e.target = nodeId := congrArg Prod.snd hp'
        refine h1 ⟨e, he, ?_⟩
        rw [inboundEdgePattern, hs]
        simp [buildPropertyNode, buildPropertyId, ht]
    simp only [expandInStep]
    rw [if_neg (by simp [hb]), if_neg (by simp [hn]), hadd]

/-- C10 witness: the dedup theorem applied at concrete inputs: a matching
edge from a group anchored elsewhere blocks the addition, and on a free
working set the node and its edge are added together. -/
theorem c10_inbound_dedup_witness :
    expandInStep 10 (WId.n 1)
      ([sampleEntity], [buildEdge (WId.p 7 5) (WId.n 1) "x" (WId.n 1)]) ⟨7, "p", 2⟩
      = ([sampleEntity], [buildEdge (WId.p 7 5) (WId.n 1) "x" (WId.n 1)]) ∧
    expandInStep 10 (WId.n 1) ([], []) ⟨7, "p", 2⟩
      = ([buildPropertyNode 10 (WId.n 1) ⟨7, "p", 2⟩],
         [buildEdge (buildPropertyNode 10 (WId.n 1) ⟨7, "p", 2⟩).id (WId.n 1)
            "p" (WId.n 1)]) := by
  constructor
  · refine (c10_inbound_dedup 10 (WId.n 1) ⟨7, "p", 2⟩ [sampleEntity]
      [buildEdge (WId.p 7 5) (WId.n 1) "x" (WId.n 1)] ?_).1 ?_
    · intro e he
      refine ⟨sampleEntity, by simp, ?_⟩
      rcases List.mem_singleton.mp he with rfl
      rfl
    · exact ⟨buildEdge (WId.p 7 5) (WId.n 1) "x" (WId.n 1), by simp, rfl⟩
  · refine (c10_inbound_dedup 10 (WId.n 1) ⟨7, "p", 2⟩ [] [] ?_).2 ?_ ?_
    · intro e he
      cases he
    · rintro ⟨e, he, -⟩
      cases he
    · rintro ⟨x, hx, -⟩
      cases hx

/-- Invariant of the edge collection: no two edges with the same unordered
endpoint pair in opposite directions (a pair may only coincide when both
endpoints are equal, in which case the two ids are the same edge id). -/
def EdgeInvariant (edges : List GEdge) : Prop :=
  ∀ a b : WId, (∃ e ∈ edges, e.eid = (a, b)) → (∃ e ∈ edges, e.eid = (b, a)) → a = b

theorem edgeInv_nil : EdgeInvariant [] := by
  rintro a b ⟨e, he, -⟩
  cases he

theorem edgeInv_filter (p : GEdge → Bool) {es : List GEdge} (h : EdgeInvariant es) :
    EdgeInvariant (es.filter p) := by
  rintro a b ⟨e1, he1, h1⟩ ⟨e2, he2, h2⟩
  exact h a b ⟨e1, (List.mem_filter.mp he1).1, h1⟩ ⟨e2, (List.mem_filter.mp he2).1, h2⟩

theorem edgeInv_addEdgeIfAbsent (edge : GEdge) {es : List GEdge}
    (h : EdgeInvariant es) : EdgeInvariant (addEdgeIfAbsent edge es) := by
  unfold addEdgeIfAbsent
  by_cases h1 : es.any (fun e => e.eid == edge.eid) = true
  · rw [if_pos h1]; exact h
  · rw [if_neg h1]
    by_cases h2 : es.any (fun e => e.eid == (edge.target, edge.source)) = true
    · rw [if_pos h2]; exact h
    · rw [if_neg h2]
      rintro a b ⟨e1, he1, hq1⟩ ⟨e2, he2, hq2⟩
      rcases List.mem_append.mp he1 with he1 | he1
      · rcases List.mem_append.mp he2 with he2 | he2
        · exact h a b ⟨e1, he1, hq1⟩ ⟨e2, he2, hq2⟩
        · have heq := List.mem_singleton.mp he2
          rw [heq] at hq2
          have hsrc : edge.source = b := congrArg Prod.fst hq2
          have htgt : edge.target = a := congrArg Prod.snd hq2
          exact absurd (List.any_eq_true.mpr
            ⟨e1, he1, by simp [hq1, htgt, hsrc]⟩) h2
      · have heq := List.mem_singleton.mp he1
        rw [heq] at hq1
        rcases List.mem_append.mp he2 with he2 | he2
        · have hsrc : edge.source = a := congrArg Prod.fst hq1
          have htgt : edge.target = b := congrArg Prod.snd hq1
          exact absurd (List.any_eq_true.mpr
            ⟨e2, he2, by simp [hq2, htgt, hsrc]⟩) h2
        · have heq2 := List.mem_singleton.mp he2
          rw [heq2] at hq2
          have hab : (a, b) = ((b, a) : WId × WId) := hq1.symm.trans hq2
          exact congrArg Prod.fst hab

theorem edgeInv_foldl {γ : Type} (f : List GNode × List GEdge → γ → List GNode × List GEdge)
    (hf : ∀ acc g, EdgeInvariant acc.2 → EdgeInvariant (f acc g).2) :
    ∀ (l : List γ) (acc : List GNode × List GEdge),
      EdgeInvariant acc.2 → EdgeInvariant (l.foldl f acc).2 := by
  intro l
  induction l with
  | nil => intro acc h; exact h
  | cons a t ih => intro acc h; exact ih (f acc a) (hf acc a h)

theorem edgeInv_expandOutStep (ps : Nat) (i : WId) (o : Option WId)
    (acc : List GNode × List GEdge) (g : TripleGroup) (h : EdgeInvariant acc.2) :
    EdgeInvariant (expandOutStep ps i o acc g).2 := by
  unfold expandOutStep
  dsimp only
  split
  · exact h
  · exact edgeInv_addEdgeIfAbsent _ h

theorem edgeInv_expandInStep (ps : Nat) (i : WId)
    (acc : List GNode × List GEdge) (g : TripleGroup) (h : EdgeInvariant acc.2) :
    EdgeInvariant (expandInStep ps i acc g).2 := by
  unfold expandInStep
  dsimp only
  split
  · exact h
  · exact edgeInv_addEdgeIfAbsent _ h

theorem edgeInv_expandPropOutStep (ps : Nat) (i : WId)
    (acc : List GNode × List GEdge) (c : UriNode) (h : EdgeInvariant acc.2) :
    EdgeInvariant (expandPropOutStep ps i acc c).2 :=
  edgeInv_addEdgeIfAbsent _ h

theorem edgeInv_expandPropInStep (ps : Nat) (i : WId)
    (acc : List GNode × List GEdge) (c : UriNode) (h : EdgeInvariant acc.2) :
    EdgeInvariant (expandPropInStep ps i acc c).2 :=
  edgeInv_addEdgeIfAbsent _ h

theorem edgeInv_expandPropLitStep (ps ml : Nat) (i : WId)
    (acc : List GNode × List GEdge) (t : UriTriple) (h : EdgeInvariant acc.2) :
    EdgeInvariant (expandPropLitStep ps ml i acc t).2 :=
  edgeInv_addEdgeIfAbsent _ h

theorem selectNode_edges (st : WState) (i : Option WId) :
    (selectNode st i).edges = st.edges := by
  unfold selectNode
  split
  · rfl
  · split <;> rfl

theorem removeChildren_edges_filter (o : WId) (st : WState) :
    (removeChildren o st).edges
      = st.edges.filter (fun e => !((removeDescAux [o] st.nodes).2.contains e.source
          || (removeDescAux [o] st.nodes).2.contains e.target)) := by
  unfold removeChildren
  dsimp only
  split
  · split
    · rw [selectNode_edges]
    · rfl
  · rfl

theorem edgeInv_removeChildren (o : WId) (st : WState) (h : EdgeInvariant st.edges) :
    EdgeInvariant (removeChildren o st).edges := by
  rw [removeChildren_edges_filter]
  exact edgeInv_filter _ h

theorem edgeInv_expandNodeNext (ps : Nat) (node : GNode)
    (outOv inOv : Option TripleFilterUpdate) (outs ins : Page TripleGroup)
    (st : WState) (h : EdgeInvariant st.edges) :
    EdgeInvariant (expandNodeNext ps node outOv inOv outs ins st).edges := by
  unfold expandNodeNext
  refine edgeInv_foldl _ (fun acc g hh => edgeInv_expandInStep ps node.id acc g hh) _ _ ?_
  refine edgeInv_foldl _ (fun acc g hh => edgeInv_expandOutStep ps node.id node.data.originId acc g hh) _ _ ?_
  exact edgeInv_removeChildren _ _ h

theorem edgeInv_expandPropertyNext (ps ml : Nat) (node : GNode)
    (outOv inOv : Option LinkedNodeFilterUpdate)
    (litOv : Option LinkedLiteralFilterUpdate)
    (outs ins : Page UriNode) (lits : Page UriTriple)
    (st : WState) (h : EdgeInvariant st.edges) :
    EdgeInvariant (expandPropertyNext ps ml node outOv inOv litOv outs ins lits st).edges := by
  unfold expandPropertyNext
  refine edgeInv_foldl _ (fun acc t hh => edgeInv_expandPropLitStep ps ml node.id acc t hh) _ _ ?_
  refine edgeInv_foldl _ (fun acc c hh => edgeInv_expandPropInStep ps node.id acc c hh) _ _ ?_
  refine edgeInv_foldl _ (fun acc c hh => edgeInv_expandPropOutStep ps node.id acc c hh) _ _ ?_
  exact edgeInv_removeChildren _ _ h

/-- C4: in every working set reachable by any sequence of reset,
expandNode, expandProperty and toggleNode operations, the edge collection
never holds an edge `E<a>_<b>` together with its reverse `E<b>_<a>` over
a distinct unordered endpoint pair: every edge is added through
`addEdgeIfAbsent`, which refuses an edge whose id or inverse id is
present. -/
theorem c4_no_inverse_edge_pairs (st : WState) (h : WReachable st) :
    EdgeInvariant st.edges := by
  induction h with
  | refl => exact edgeInv_nil
  | tail hr hs ih =>
    cases hs with
    | resetOk ps n => exact edgeInv_nil
    | resetErr e => exact ih
    | expandOk ps node outOv inOv outs ins hmem =>
      exact edgeInv_expandNodeNext ps node outOv inOv outs ins _ ih
    | expandErr node e hmem => exact ih
    | expandPropOk ps ml node outOv inOv litOv outs ins lits hmem =>
      exact edgeInv_expandPropertyNext ps ml node outOv inOv litOv outs ins lits _ ih
    | expandPropErr node e hmem => exact ih
    | toggleCollapse node hmem hx =>
      exact edgeInv_removeChildren node.id _ ih
    | select i =>
      rw [selectNode_edges]
      exact ih

/-- C4 witness: the invariant theorem applied to the initial reachable
state. -/
theorem c4_no_inverse_edge_pairs_witness : EdgeInvariant WState.init.edges :=
  c4_no_inverse_edge_pairs WState.init Relation.ReflTransGen.refl

/-- Origin reachability: the recorded origin-id chain of a node leads,
through nodes present in the list, to one of the target ids. This is the
set of nodes the teardown of `removeDescendantNodes` removes when seeded
with the target worklist. -/
inductive OriginReach (nodes : List GNode) (targets : List WId) : GNode → Prop where
  | base (x : GNode) (w : WId) (hw : x.data.originId = some w) (hmem : w ∈ targets) :
      OriginReach nodes targets x
  | step (x y : GNode) (hy : y ∈ nodes) (ho : x.data.originId = some y.id)
      (hr : OriginReach nodes targets y) : OriginReach nodes targets x

theorem originReach_nil {ns : List GNode} {x : GNode} :
    ¬ OriginReach ns [] x := by
  intro h
  induction h with
  | base x w hw hmem => cases hmem
  | step x y hy ho hr ih => exact ih

theorem originReach_mono {ns ns' : List GNode} {ws : List WId} {x : GNode}
    (hsub : ∀ y ∈ ns, y ∈ ns') (h : OriginReach ns ws x) : OriginReach ns' ws x := by
  induction h with
  | base x w hw hmem => exact .base x w hw hmem
  | step x y hy ho hr ih => exact .step x y (hsub y hy) ho ih

theorem originReach_descend {o : WId} {os : List WId} {ns : List GNode} {x : GNode}
    (h : OriginReach ns (o :: os) x) :
    x.data.originId = some o ∨
    OriginReach (ns.filter (fun n => !(n.data.originId == some o)))
      (os ++ (ns.filter (fun n => n.data.originId == some o)).map GNode.id) x := by
  induction h with
  | base x w hw hmem =>
    rcases List.mem_cons.mp hmem with rfl | hmem'
    · exact Or.inl hw
    · exact Or.inr (.base x w hw (List.mem_append_left _ hmem'))
  | step x y hy ho hr ih =>
    by_cases hyo : y.data.originId = some o
    · refine Or.inr (.base x y.id ho (List.mem_append_right _ ?_))
      exact List.mem_map_of_mem GNode.id (List.mem_filter.mpr ⟨hy, by simp [hyo]⟩)
    · rcases ih with h1 | h1
      · exact absurd h1 hyo
      · refine Or.inr (.step x y ?_ ho h1)
        exact List.mem_filter.mpr ⟨hy, by simp [hyo]⟩

theorem originReach_ascend {o : WId} {os : List WId} {ns : List GNode} {x : GNode}
    (h : OriginReach (ns.filter (fun n => !(n.data.originId == some o)))
      (os ++ (ns.filter (fun n => n.data.originId == some o)).map GNode.id) x) :
    OriginReach ns (o :: os) x := by
  induction h with
  | base x w hw hmem =>
    rcases List.mem_append.mp hmem with hmem' | hmem'
    · exact .base x w hw (List.mem_cons_of_mem o hmem')
    · rcases List.mem_map.mp hmem' with ⟨c, hc, rfl⟩
      have hcm := List.mem_filter.mp hc
      refine .step x c hcm.1 hw (.base c o ?_ (List.mem_cons_self o os))
      simpa using hcm.2
  | step x y hy ho hr ih =>
    exact .step x y (List.mem_filter.mp hy).1 ho ih

theorem length_filter_origin_partition (o : WId) (l : List GNode) :
    (l.filter (fun n => n.data.originId == some o)).length
      + (l.filter (fun n => !(n.data.originId == some o))).length = l.length := by
  induction l with
  | nil => rfl
  | cons a t iht =>
    cases hh : a.data.originId == some o <;> simp [List.filter_cons, hh] <;> omega

theorem removeDescAux_spec : ∀ (k : Nat) (ws : List WId) (ns : List GNode),
    2 * ns.length + ws.length ≤ k →
    (∀ x, x ∈ (removeDescAux ws ns).1 ↔ x ∈ ns ∧ ¬ OriginReach ns ws x) ∧
    (∀ i, i ∈ (removeDescAux ws ns).2 ↔
      ∃ x, x ∈ ns ∧ x.id = i ∧ OriginReach ns ws x) := by
  intro k
  induction k with
  | zero =>
    intro ws ns hle
    have hns : ns = [] := List.length_eq_zero.mp (by omega)
    have hws : ws = [] := List.length_eq_zero.mp (by omega)
    subst hns; subst hws
    rw [removeDescAux_nil]
    constructor
    · intro x
      constructor
      · intro hx
        exact ⟨hx, originReach_nil⟩
      · rintro ⟨hx, -⟩
        exact hx
    · intro i
      constructor
      · intro hi
        exact absurd hi (List.not_mem_nil i)
      · rintro ⟨x, hx, rfl, hr⟩
        exact absurd hr originReach_nil
  | succ n ih =>
    intro ws ns hle
    match ws with
    | [] =>
      rw [removeDescAux_nil]
      constructor
      · intro x
        constructor
        · intro hx
          exact ⟨hx, originReach_nil⟩
        · rintro ⟨hx, -⟩
          exact hx
      · intro i
        constructor
        · intro hi
          exact absurd hi (List.not_mem_nil i)
        · rintro ⟨x, hx, rfl, hr⟩
          exact absurd hr originReach_nil
    | o :: os =>
      have hpart := length_filter_origin_partition o ns
      have hlen : 2 * (ns.filter (fun n => !(n.data.originId == some o))).length
          + (os ++ (ns.filter (fun n => n.data.originId == some o)).map GNode.id).length
            ≤ n := by
        simp only [List.length_append, List.length_map, List.length_cons] at hle ⊢
        omega
      have IH := ih (os ++ (ns.filter (fun n => n.data.originId == some o)).map GNode.id)
        (ns.filter (fun n => !(n.data.originId == some o))) hlen
      rw [removeDescAux]
      dsimp only
      constructor
      · intro x
        rw [IH.1 x]
        constructor
        · rintro ⟨hx, hnr⟩
          have hxm := List.mem_filter.mp hx
          refine ⟨hxm.1, ?_⟩
          intro hr
          rcases originReach_descend hr with h1 | h1
          · simp [h1] at hxm
          · exact hnr h1
        · rintro ⟨hx, hnr⟩
          have hxo : ¬(x.data.originId = some o) := by
            intro hc
            exact hnr (.base x o hc (List.mem_cons_self o os))
          refine ⟨List.mem_filter.mpr ⟨hx, by simp [hxo]⟩, ?_⟩
          intro hr
          exact hnr (originReach_ascend hr)
      · intro i
        rw [List.mem_append, IH.2 i]
        constructor
        · rintro (hi | ⟨x, hx, rfl, hr⟩)
          · rcases List.mem_map.mp hi with ⟨c, hc, rfl⟩
            have hcm := List.mem_filter.mp hc
            refine ⟨c, hcm.1, rfl, .base c o (by simpa using hcm.2)
              (List.mem_cons_self o os)⟩
          · exact ⟨x, (List.mem_filter.mp hx).1, rfl, originReach_ascend hr⟩
        · rintro ⟨x, hx, rfl, hr⟩
          by_cases hxo : x.data.originId = some o
          · exact Or.inl (List.mem_map_of_mem GNode.id
              (List.mem_filter.mpr ⟨hx, by simp [hxo]⟩))
          · rcases originReach_descend hr with h1 | h1
            · exact absurd h1 hxo
            · exact Or.inr ⟨x, List.mem_filter.mpr ⟨hx, by simp [hxo]⟩, rfl, h1⟩

theorem removeDescAux_mem_fst (ws : List WId) (ns : List GNode) (x : GNode) :
    x ∈ (removeDescAux ws ns).1 ↔ x ∈ ns ∧ ¬ OriginReach ns ws x :=
  (removeDescAux_spec (2 * ns.length + ws.length) ws ns le_rfl).1 x

theorem removeDescAux_mem_snd (ws : List WId) (ns : List GNode) (i : WId) :
    i ∈ (removeDescAux ws ns).2 ↔ ∃ x, x ∈ ns ∧ x.id = i ∧ OriginReach ns ws x :=
  (removeDescAux_spec (2 * ns.length + ws.length) ws ns le_rfl).2 i

theorem setFirstSelectedById_map_id (i : WId) (ns : List GNode) :
    (setFirstSelectedById i ns).map GNode.id = ns.map GNode.id := by
  induction ns with
  | nil => rfl
  | cons a t ih =>
    cases h : a.id == i <;> simp [setFirstSelectedById, h, ih]

theorem selectNode_nodes_map_id (st : WState) (i : Option WId) :
    (selectNode st i).nodes.map GNode.id = st.nodes.map GNode.id := by
  unfold selectNode
  split
  · rfl
  · split <;>
      simp [resetFilters, setFirstSelectedById_map_id, clearFirstSelected_map_id]

theorem removeChildren_nodes_map_id (o : WId) (st : WState) :
    (removeChildren o st).nodes.map GNode.id
      = (removeDescAux [o] st.nodes).1.map GNode.id := by
  unfold removeChildren
  dsimp only
  split
  · split
    · rw [selectNode_nodes_map_id]
    · rfl
  · rfl

/-- C3: toggling an expanded node removes exactly the nodes whose
recorded origin-id chain leads back to it, removes exactly the edges one
of whose encoded endpoints is among the removed ids, clears the expanded
flag of the node, and removes nothing else. Stated for a node of an
id-duplicate-free working set that is not its own origin descendant. -/
theorem c3_toggle_collapse (st : WState) (node : GNode)
    (hmem : node ∈ st.nodes) (hexp : node.data.expanded = true)
    (hnd : (st.nodes.map GNode.id).Nodup)
    (hself : ¬ OriginReach st.nodes [node.id] node) :
    (∀ x ∈ st.nodes, (x.id ∈ (toggleCollapseNext node st).nodes.map GNode.id
        ↔ ¬ OriginReach st.nodes [node.id] x)) ∧
    (∀ i ∈ (toggleCollapseNext node st).nodes.map GNode.id,
        i ∈ st.nodes.map GNode.id) ∧
    (∀ e, e ∈ (toggleCollapseNext node st).edges ↔
        (e ∈ st.edges ∧ ¬ ∃ x, x ∈ st.nodes ∧ OriginReach st.nodes [node.id] x ∧
            (x.id = e.source ∨ x.id = e.target))) ∧
    (∃ x ∈ (toggleCollapseNext node st).nodes,
        x.id = node.id ∧ x.data.expanded = false) := by
  have hmap : (toggleCollapseNext node st).nodes.map GNode.id
      = (removeDescAux [node.id] st.nodes).1.map GNode.id := by
    show (updateNode (removeChildren node.id st).nodes node.id
      (fun x => { x with data := { x.data with expanded := false } })).map GNode.id = _
    rw [updateNode_map_id ((removeChildren node.id st).nodes) node.id
      (fun x => { x with data := { x.data with expanded := false } }) (fun x => rfl),
      removeChildren_nodes_map_id]
  have hedges : (toggleCollapseNext node st).edges
      = (removeChildren node.id st).edges := rfl
  refine ⟨?_, ?_, ?_, ?_⟩
  · intro x hx
    rw [hmap]
    constructor
    · intro hin hr
      rcases List.mem_map.mp hin with ⟨y, hy, hyx⟩
      rcases (removeDescAux_mem_fst _ _ y).mp hy with ⟨hyns, hynr⟩
      have hyeq : y = x := eq_of_mem_of_nodup_ids hnd hyns hx hyx
      subst hyeq
      exact hynr hr
    · intro hnr
      exact List.mem_map_of_mem GNode.id
        ((removeDescAux_mem_fst _ _ x).mpr ⟨hx, hnr⟩)
  · intro i hi
    rw [hmap] at hi
    rcases List.mem_map.mp hi with ⟨y, hy, rfl⟩
    exact List.mem_map_of_mem GNode.id ((removeDescAux_mem_fst _ _ y).mp hy).1
  · intro e
    rw [hedges, removeChildren_edges_filter, List.mem_filter]
    constructor
    · rintro ⟨he, hp⟩
      refine ⟨he, ?_⟩
      rintro ⟨x, hxns, hr, hor⟩
      have hp' : e.source ∉ (removeDescAux [node.id] st.nodes).2
          ∧ e.target ∉ (removeDescAux [node.id] st.nodes).2 := by
        simpa using hp
      rcases hor with hor | hor
      · exact hp'.1 ((removeDescAux_mem_snd _ _ e.source).mpr ⟨x, hxns, hor, hr⟩)
      · exact hp'.2 ((removeDescAux_mem_snd _ _ e.target).mpr ⟨x, hxns, hor, hr⟩)
    · rintro ⟨he, hno⟩
      refine ⟨he, ?_⟩
      have hs : e.source ∉ (removeDescAux [node.id] st.nodes).2 := by
        intro hc
        rcases (removeDescAux_mem_snd _ _ e.source).mp hc with ⟨x, hxns, hxi, hr⟩
        exact hno ⟨x, hxns, hr, Or.inl hxi⟩
      have ht : e.target ∉ (removeDescAux [node.id] st.nodes).2 := by
        intro hc
        rcases (removeDescAux_mem_snd _ _ e.target).mp hc with ⟨x, hxns, hxi, hr⟩
        exact hno ⟨x, hxns, hr, Or.inr hxi⟩
      simp [hs, ht]
  · have hnode1 : node ∈ (removeDescAux [node.id] st.nodes).1 :=
      (removeDescAux_mem_fst _ _ node).mpr ⟨hmem, hself⟩
    have hin : node.id ∈ (removeChildren node.id st).nodes.map GNode.id := by
      rw [removeChildren_nodes_map_id]
      exact List.mem_map_of_mem GNode.id hnode1
    rcases List.mem_map.mp hin with ⟨y, hy, hyid⟩
    refine ⟨{ y with data := { y.data with expanded := false } }, ?_, hyid, rfl⟩
    show _ ∈ updateNode (removeChildren node.id st).nodes node.id _
    exact (mem_updateNode _ _ _ _).mpr ⟨y, hy, by rw [if_pos hyid]⟩

/-- C3 witness: collapsing the expanded parent of a two-node working set
removes the child id and leaves the parent with a cleared expanded flag,
by the collapse theorem. -/
theorem c3_toggle_collapse_witness :
    (WId.p 7 1) ∉ (toggleCollapseNext sampleParent sampleToggleState).nodes.map GNode.id ∧
    ∃ x ∈ (toggleCollapseNext sampleParent sampleToggleState).nodes,
      x.id = WId.n 1 ∧ x.data.expanded = false := by
  have hself : ¬ OriginReach sampleToggleState.nodes [sampleParent.id] sampleParent := by
    intro h
    cases h <;> simp_all [sampleParent]
  have h := c3_toggle_collapse sampleToggleState sampleParent
    (by simp [sampleToggleState, WState.init])
    rfl
    (by simp [sampleToggleState, WState.init, sampleParent, sampleChild])
    hself
  constructor
  · intro hin
    have hreach : OriginReach sampleToggleState.nodes [sampleParent.id] sampleChild :=
      .base sampleChild (WId.n 1) rfl (by simp [sampleParent])
    exact (h.1 sampleChild (by simp [sampleToggleState, WState.init])).mp hin hreach
  · exact h.2.2.2

theorem any_eid_mem (es : List GEdge) (q : WId × WId) :
    ((es.any fun e => e.eid == q) = true) ↔ q ∈ es.map GEdge.eid := by
  rw [List.any_eq_true]
  constructor
  · rintro ⟨e, he, hq⟩
    exact List.mem_map.mpr ⟨e, he, by simpa using hq⟩
  · intro h
    rcases List.mem_map.mp h with ⟨e, he, rfl⟩
    exact ⟨e, he, by simp⟩

theorem any_nid_mem (ns : List GNode) (j : WId) :
    ((ns.any fun n => n.id == j) = true) ↔ j ∈ ns.map GNode.id := by
  rw [List.any_eq_true]
  constructor
  · rintro ⟨n, hn, hq⟩
    exact List.mem_map.mpr ⟨n, hn, by simpa using hq⟩
  · intro h
    rcases List.mem_map.mp h with ⟨n, hn, rfl⟩
    exact ⟨n, hn, by simp⟩

theorem addEdgeIfAbsent_of_mem (e : GEdge) (es : List GEdge)
    (h : e.eid ∈ es.map GEdge.eid ∨ (e.target, e.source) ∈ es.map GEdge.eid) :
    addEdgeIfAbsent e es = es := by
  unfold addEdgeIfAbsent
  by_cases h1 : (es.any fun x => x.eid == e.eid) = true
  · rw [if_pos h1]
  · rw [if_neg h1]
    rcases h with h | h
    · exact absurd ((any_eid_mem es e.eid).mpr h) h1
    · rw [if_pos ((any_eid_mem es (e.target, e.source)).mpr h)]

theorem addEdgeIfAbsent_of_not_mem (e : GEdge) (es : List GEdge)
    (h1 : e.eid ∉ es.map GEdge.eid) (h2 : (e.target, e.source) ∉ es.map GEdge.eid) :
    addEdgeIfAbsent e es = es ++ [e] := by
  unfold addEdgeIfAbsent
  rw [if_neg (fun hc => h1 ((any_eid_mem es e.eid).mp hc)),
      if_neg (fun hc => h2 ((any_eid_mem es (e.target, e.source)).mp hc))]

theorem nodupEids_addEdgeIfAbsent (e : GEdge) (es : List GEdge)
    (h : (es.map GEdge.eid).Nodup) :
    ((addEdgeIfAbsent e es).map GEdge.eid).Nodup := by
  unfold addEdgeIfAbsent
  by_cases h1 : (es.any fun x => x.eid == e.eid) = true
  · rw [if_pos h1]; exact h
  · rw [if_neg h1]
    by_cases h2 : (es.any fun x => x.eid == (e.target, e.source)) = true
    · rw [if_pos h2]; exact h
    · rw [if_neg h2]
      have hne : e.eid ∉ es.map GEdge.eid :=
        fun hc => h1 ((any_eid_mem es e.eid).mpr hc)
      simp only [List.map_append, List.map_cons, List.map_nil]
      rw [List.nodup_append]
      exact ⟨h, List.nodup_singleton _, by simpa using hne⟩

theorem mem_addEdgeIfAbsent_eid (e : GEdge) (es : List GEdge) (q : WId × WId) :
    q ∈ (addEdgeIfAbsent e es).map GEdge.eid ↔
      (q ∈ es.map GEdge.eid ∨
        (q = e.eid ∧ e.eid ∉ es.map GEdge.eid ∧
          (e.target, e.source) ∉ es.map GEdge.eid)) := by
  unfold addEdgeIfAbsent
  by_cases h1 : (es.any fun x => x.eid == e.eid) = true
  · rw [if_pos h1]
    have := (any_eid_mem es e.eid).mp h1
    constructor
    · exact Or.inl
    · rintro (h | ⟨-, hn, -⟩)
      · exact h
      · exact absurd this hn
  · rw [if_neg h1]
    have hno : e.eid ∉ es.map GEdge.eid := fun hc => h1 ((any_eid_mem es e.eid).mpr hc)
    by_cases h2 : (es.any fun x => x.eid == (e.target, e.source)) = true
    · rw [if_pos h2]
      have := (any_eid_mem es (e.target, e.source)).mp h2
      constructor
      · exact Or.inl
      · rintro (h | ⟨-, -, hn⟩)
        · exact h
        · exact absurd this hn
    · rw [if_neg h2]
      have hno2 : (e.target, e.source) ∉ es.map GEdge.eid :=
        fun hc => h2 ((any_eid_mem es (e.target, e.source)).mpr hc)
      simp only [List.map_append, List.map_cons, List.map_nil, List.mem_append,
        List.mem_singleton]
      constructor
      · rintro (h | h)
        · exact Or.inl h
        · exact Or.inr ⟨h, hno, hno2⟩
      · rintro (h | ⟨h, -, -⟩)
        · exact Or.inl h
        · exact Or.inr h

theorem foldl_preserve {σ γ : Type} (P : σ → Prop) (f : σ → γ → σ)
    (hf : ∀ acc g, P acc → P (f acc g)) :
    ∀ (l : List γ) (acc : σ), P acc → P (l.foldl f acc) := by
  intro l
  induction l with
  | nil => intro acc h; exact h
  | cons a t ih => intro acc h; exact ih (f acc a) (hf acc a h)

theorem removeDescAux_sublist : ∀ (k : Nat) (ws : List WId) (ns : List GNode),
    2 * ns.length + ws.length ≤ k → (removeDescAux ws ns).1.Sublist ns := by
  intro k
  induction k with
  | zero =>
    intro ws ns hle
    have hns : ns = [] := List.length_eq_zero.mp (by omega)
    have hws : ws = [] := List.length_eq_zero.mp (by omega)
    subst hns; subst hws
    rw [removeDescAux_nil]
  | succ n ih =>
    intro ws ns hle
    match ws with
    | [] =>
      rw [removeDescAux_nil]
    | o :: os =>
      have hpart := length_filter_origin_partition o ns
      have hlen : 2 * (ns.filter (fun n => !(n.data.originId == some o))).length
          + (os ++ (ns.filter (fun n => n.data.originId == some o)).map GNode.id).length
            ≤ n := by
        simp only [List.length_append, List.length_map, List.length_cons] at hle ⊢
        omega
      rw [removeDescAux]
      dsimp only
      exact (ih _ _ hlen).trans (List.filter_sublist ns)

theorem removeChildren_of_no_sel (o : WId) (st : WState) (hsel : st.selectedId = none) :
    removeChildren o st
      = { st with
          nodes := (removeDescAux [o] st.nodes).1,
          edges := st.edges.filter (fun e =>
            !((removeDescAux [o] st.nodes).2.contains e.source
              || (removeDescAux [o] st.nodes).2.contains e.target)) } := by
  unfold removeChildren
  dsimp only
  rw [hsel]

theorem expandOutFold_append (ps : Nat) (i : WId) (o : Option WId) :
    ∀ (gs : List TripleGroup) (ns : List GNode) (es : List GEdge),
    ∃ l1 l2,
      (expandOutFold ps i o gs (ns, es)).1 = ns ++ l1 ∧
      (expandOutFold ps i o gs (ns, es)).2 = es ++ l2 ∧
      (∀ x ∈ l1, ∃ g ∈ gs, x = buildPropertyNode ps i g ∧ x.id ∉ ns.map GNode.id) ∧
      (∀ e ∈ l2, ∃ g ∈ gs,
        e = buildEdge i (buildPropertyNode ps i g).id g.predicateUri i ∧
        e.eid ∉ es.map GEdge.eid ∧
        (buildPropertyNode ps i g).id ∈ l1.map GNode.id) := by
  intro gs
  induction gs with
  | nil =>
    intro ns es
    refine ⟨[], [], by simp [expandOutFold], by simp [expandOutFold], ?_, ?_⟩
    · intro x hx; cases hx
    · intro e he; cases he
  | cons g gs ih =>
    intro ns es
    have hcons : expandOutFold ps i o (g :: gs) (ns, es)
        = expandOutFold ps i o gs (expandOutStep ps i o (ns, es) g) := rfl
    rw [hcons]
    by_cases hb : ((ns.any fun n => n.id == (buildPropertyNode ps i g).id
        || n.id == buildPropertyId g.predicateId (getNodeNumericIdOfOrigin o)) = true)
    · have hstep : expandOutStep ps i o (ns, es) g = (ns, es) := by
        unfold expandOutStep
        dsimp only
        rw [if_pos hb]
      rw [hstep]
      rcases ih ns es with ⟨l1, l2, h1, h2, h3, h4⟩
      refine ⟨l1, l2, h1, h2, ?_, ?_⟩
      · intro x hx
        rcases h3 x hx with ⟨g', hg', hx1, hx2⟩
        exact ⟨g', List.mem_cons_of_mem g hg', hx1, hx2⟩
      · intro e he
        rcases h4 e he with ⟨g', hg', he1, he2, he3⟩
        exact ⟨g', List.mem_cons_of_mem g hg', he1, he2, he3⟩
    · have hfresh : (buildPropertyNode ps i g).id ∉ ns.map GNode.id := by
        intro hc
        exact hb (List.any_eq_true.mpr (by
          rcases List.mem_map.mp hc with ⟨n, hn, hid⟩
          exact ⟨n, hn, by simp [hid]⟩))
      have hstep : expandOutStep ps i o (ns, es) g
          = (ns ++ [buildPropertyNode ps i g],
             addEdgeIfAbsent (buildEdge i (buildPropertyNode ps i g).id
               g.predicateUri i) es) := by
        unfold expandOutStep
        dsimp only
        rw [if_neg hb]
      rw [hstep]
      by_cases hd : (buildEdge i (buildPropertyNode ps i g).id g.predicateUri i).eid
            ∈ es.map GEdge.eid ∨
          ((buildEdge i (buildPropertyNode ps i g).id g.predicateUri i).target,
           (buildEdge i (buildPropertyNode ps i g).id g.predicateUri i).source)
            ∈ es.map GEdge.eid
      · rw [addEdgeIfAbsent_of_mem _ _ hd]
        rcases ih (ns ++ [buildPropertyNode ps i g]) es with ⟨l1, l2, h1, h2, h3, h4⟩
        refine ⟨buildPropertyNode ps i g :: l1, l2, by simpa using h1, h2, ?_, ?_⟩
        · intro x hx
          rcases List.mem_cons.mp hx with rfl | hx'
          · exact ⟨g, List.mem_cons_self g gs, rfl, hfresh⟩
          · rcases h3 x hx' with ⟨g', hg', hx1, hx2⟩
            refine ⟨g', List.mem_cons_of_mem g hg', hx1, fun hc => hx2 ?_⟩
            simp only [List.map_append, List.mem_append]
            exact Or.inl hc
        · intro e he
          rcases h4 e he with ⟨g', hg', he1, he2, he3⟩
          refine ⟨g', List.mem_cons_of_mem g hg', he1, he2, ?_⟩
          simp only [List.map_cons, List.mem_cons]
          exact Or.inr he3
      · push_neg at hd
        rw [addEdgeIfAbsent_of_not_mem _ _ hd.1 hd.2]
        rcases ih (ns ++ [buildPropertyNode ps i g])
          (es ++ [buildEdge i (buildPropertyNode ps i g).id g.predicateUri i])
          with ⟨l1, l2, h1, h2, h3, h4⟩
        refine ⟨buildPropertyNode ps i g :: l1,
          buildEdge i (buildPropertyNode ps i g).id g.predicateUri i :: l2,
          by simpa using h1, by simpa using h2, ?_, ?_⟩
        · intro x hx
          rcases List.mem_cons.mp hx with rfl | hx'
          · exact ⟨g, List.mem_cons_self g gs, rfl, hfresh⟩
          · rcases h3 x hx' with ⟨g', hg', hx1, hx2⟩
            refine ⟨g', List.mem_cons_of_mem g hg', hx1, fun hc => hx2 ?_⟩
            simp only [List.map_append, List.mem_append]
            exact Or.inl hc
        · intro e he
          rcases List.mem_cons.mp he with rfl | he'
          · exact ⟨g, List.mem_cons_self g gs, rfl, hd.1, by simp⟩
          · rcases h4 e he' with ⟨g', hg', he1, he2, he3⟩
            refine ⟨g', List.mem_cons_of_mem g hg', he1, fun hc => he2 ?_, ?_⟩
            · simp only [List.map_append, List.mem_append]
              exact Or.inl hc
            · simp only [List.map_cons, List.mem_cons]
              exact Or.inr he3

theorem expandInFold_append (ps : Nat) (i : WId) :
    ∀ (gs : List TripleGroup) (ns : List GNode) (es : List GEdge),
    ∃ l1 l2,
      (expandInFold ps i gs (ns, es)).1 = ns ++ l1 ∧
      (expandInFold ps i gs (ns, es)).2 = es ++ l2 ∧
      (∀ x ∈ l1, ∃ g ∈ gs, x = buildPropertyNode ps i g ∧ x.id ∉ ns.map GNode.id) ∧
      (∀ e ∈ l2, ∃ g ∈ gs,
        e = buildEdge (buildPropertyNode ps i g).id i g.predicateUri i ∧
        (∀ e' ∈ es, inboundEdgePattern g.predicateId i e' = false) ∧
        ((i, (buildPropertyNode ps i g).id) ∉ es.map GEdge.eid) ∧
        (buildPropertyNode ps i g).id ∈ (ns ++ l1).map GNode.id) := by
  intro gs
  induction gs with
  | nil =>
    intro ns es
    refine ⟨[], [], by simp [expandInFold], by simp [expandInFold], ?_, ?_⟩
    · intro x hx; cases hx
    · intro e he; cases he
  | cons g gs ih =>
    intro ns es
    have hcons : expandInFold ps i (g :: gs) (ns, es)
        = expandInFold ps i gs (expandInStep ps i (ns, es) g) := rfl
    rw [hcons]
    by_cases hb : (es.any (inboundEdgePattern g.predicateId i)) = true
    · have hstep : expandInStep ps i (ns, es) g = (ns, es) := by
        unfold expandInStep
        dsimp only
        rw [if_pos hb]
      rw [hstep]
      rcases ih ns es with ⟨l1, l2, h1, h2, h3, h4⟩
      refine ⟨l1, l2, h1, h2, ?_, ?_⟩
      · intro x hx
        rcases h3 x hx with ⟨g', hg', hx1, hx2⟩
        exact ⟨g', List.mem_cons_of_mem g hg', hx1, hx2⟩
      · intro e he
        rcases h4 e he with ⟨g', hg', he1, he2, he3, he4⟩
        exact ⟨g', List.mem_cons_of_mem g hg', he1, he2, he3, he4⟩
    · have hfree : ∀ e' ∈ es, inboundEdgePattern g.predicateId i e' = false := by
        intro e' he'
        by_contra hc
        exact hb (List.any_eq_true.mpr ⟨e', he',
          eq_true_of_ne_false (fun hf => hc hf)⟩)
      by_cases hp : (ns.any fun n => n.id == (buildPropertyNode ps i g).id) = true
      · have hstep : expandInStep ps i (ns, es) g
            = (ns, addEdgeIfAbsent (buildEdge (buildPropertyNode ps i g).id i
                g.predicateUri i) es) := by
          unfold expandInStep
          dsimp only
          rw [if_neg hb, if_pos hp]
        rw [hstep]
        have hpm : (buildPropertyNode ps i g).id ∈ ns.map GNode.id :=
          (any_nid_mem ns _).mp hp
        by_cases hd : (buildEdge (buildPropertyNode ps i g).id i g.predicateUri i).eid
              ∈ es.map GEdge.eid ∨
            ((buildEdge (buildPropertyNode ps i g).id i g.predicateUri i).target,
             (buildEdge (buildPropertyNode ps i g).id i g.predicateUri i).source)
              ∈ es.map GEdge.eid
        · rw [addEdgeIfAbsent_of_mem _ _ hd]
          rcases ih ns es with ⟨l1, l2, h1, h2, h3, h4⟩
          refine ⟨l1, l2, h1, h2, ?_, ?_⟩
          · intro x hx
            rcases h3 x hx with ⟨g', hg', hx1, hx2⟩
            exact ⟨g', List.mem_cons_of_mem g hg', hx1, hx2⟩
          · intro e he
            rcases h4 e he with ⟨g', hg', he1, he2, he3, he4⟩
            exact ⟨g', List.mem_cons_of_mem g hg', he1, he2, he3, he4⟩
        · push_neg at hd
          rw [addEdgeIfAbsent_of_not_mem _ _ hd.1 hd.2]
          rcases ih ns
            (es ++ [buildEdge (buildPropertyNode ps i g).id i g.predicateUri i])
            with ⟨l1, l2, h1, h2, h3, h4⟩
          refine ⟨l1, buildEdge (buildPropertyNode ps i g).id i g.predicateUri i :: l2,
            h1, by simpa using h2, ?_, ?_⟩
          · intro x hx
            rcases h3 x hx with ⟨g', hg', hx1, hx2⟩
            exact ⟨g', List.mem_cons_of_mem g hg', hx1, hx2⟩
          · intro e he
            rcases List.mem_cons.mp he with rfl | he'
            · refine ⟨g, List.mem_cons_self g gs, rfl, hfree, hd.2, ?_⟩
              simp only [List.map_append, List.mem_append]
              exact Or.inl hpm
            · rcases h4 e he' with ⟨g', hg', he1, he2, he3, he4⟩
              refine ⟨g', List.mem_cons_of_mem g hg', he1,
                fun e' he'' => he2 e' (List.mem_append_left _ he''), ?_, he4⟩
              intro hc
              exact he3 (by
                simp only [List.map_append, List.mem_append]
                exact Or.inl hc)
      · have hfreshp : (buildPropertyNode ps i g).id ∉ ns.map GNode.id :=
          fun hc => hp ((any_nid_mem ns _).mpr hc)
        have hstep : expandInStep ps i (ns, es) g
            = (ns ++ [buildPropertyNode ps i g],
               addEdgeIfAbsent (buildEdge (buildPropertyNode ps i g).id i
                 g.predicateUri i) es) := by
          unfold expandInStep
          dsimp only
          rw [if_neg hb, if_neg hp]
        rw [hstep]
        by_cases hd : (buildEdge (buildPropertyNode ps i g).id i g.predicateUri i).eid
              ∈ es.map GEdge.eid ∨
            ((buildEdge (buildPropertyNode ps i g).id i g.predicateUri i).target,
             (buildEdge (buildPropertyNode ps i g).id i g.predicateUri i).source)
              ∈ es.map GEdge.eid
        · rw [addEdgeIfAbsent_of_mem _ _ hd]
          rcases ih (ns ++ [buildPropertyNode ps i g]) es with ⟨l1, l2, h1, h2, h3, h4⟩
          refine ⟨buildPropertyNode ps i g :: l1, l2, by simpa using h1, h2, ?_, ?_⟩
          · intro x hx
            rcases List.mem_cons.mp hx with rfl | hx'
            · exact ⟨g, List.mem_cons_self g gs, rfl, hfreshp⟩
            · rcases h3 x hx' with ⟨g', hg', hx1, hx2⟩
              refine ⟨g', List.mem_cons_of_mem g hg', hx1, fun hc => hx2 ?_⟩
              simp only [List.map_append, List.mem_append]
              exact Or.inl hc
          · intro e he
            rcases h4 e he with ⟨g', hg', he1, he2, he3, he4⟩
            refine ⟨g', List.mem_cons_of_mem g hg', he1, he2, he3, ?_⟩
            have : (ns ++ [buildPropertyNode ps i g]) ++ l1
                = ns ++ (buildPropertyNode ps i g :: l1) := by simp
            rw [← this]
            exact he4
        · push_neg at hd
          rw [addEdgeIfAbsent_of_not_mem _ _ hd.1 hd.2]
          rcases ih (ns ++ [buildPropertyNode ps i g])
            (es ++ [buildEdge (buildPropertyNode ps i g).id i g.predicateUri i])
            with ⟨l1, l2, h1, h2, h3, h4⟩
          refine ⟨buildPropertyNode ps i g :: l1,
            buildEdge (buildPropertyNode ps i g).id i g.predicateUri i :: l2,
            by simpa using h1, by simpa using h2, ?_, ?_⟩
          · intro x hx
            rcases List.mem_cons.mp hx with rfl | hx'
            · exact ⟨g, List.mem_cons_self g gs, rfl, hfreshp⟩
            · rcases h3 x hx' with ⟨g', hg', hx1, hx2⟩
              refine ⟨g', List.mem_cons_of_mem g hg', hx1, fun hc => hx2 ?_⟩
              simp only [List.map_append, List.mem_append]
              exact Or.inl hc
          · intro e he
            rcases List.mem_cons.mp he with rfl | he'
            · refine ⟨g, List.mem_cons_self g gs, rfl, hfree, hd.2, ?_⟩
              simp
            · rcases h4 e he' with ⟨g', hg', he1, he2, he3, he4⟩
              refine ⟨g', List.mem_cons_of_mem g hg', he1,
                fun e' he'' => he2 e' (List.mem_append_left _ he''), ?_, ?_⟩
              · intro hc
                exact he3 (by
                  simp only [List.map_append, List.mem_append]
                  exact Or.inl hc)
              · have : (ns ++ [buildPropertyNode ps i g]) ++ l1
                    = ns ++ (buildPropertyNode ps i g :: l1) := by simp
                rw [← this]
                exact he4

theorem inboundEdgePattern_eq_eid (pid : Nat) (i : WId) (e : GEdge) :
    inboundEdgePattern pid i e = inboundPatternEid pid i e.eid := rfl

theorem any_inPattern_iff (es : List GEdge) (pid : Nat) (i : WId) :
    ((es.any (inboundEdgePattern pid i)) = true) ↔
      ∃ q ∈ es.map GEdge.eid, inboundPatternEid pid i q = true := by
  rw [List.any_eq_true]
  constructor
  · rintro ⟨e, he, hp⟩
    exact ⟨e.eid, List.mem_map_of_mem GEdge.eid he, hp⟩
  · rintro ⟨q, hq, hp⟩
    rcases List.mem_map.mp hq with ⟨e, he, rfl⟩
    exact ⟨e, he, hp⟩

theorem any_nid2_mem (ns : List GNode) (a b : WId) :
    ((ns.any fun n => n.id == a || n.id == b) = true) ↔
      a ∈ ns.map GNode.id ∨ b ∈ ns.map GNode.id := by
  rw [List.any_eq_true]
  constructor
  · rintro ⟨n, hn, hq⟩
    rcases Bool.or_eq_true_iff.mp hq with h | h
    · exact Or.inl (List.mem_map.mpr ⟨n, hn, by simpa using h⟩)
    · exact Or.inr (List.mem_map.mpr ⟨n, hn, by simpa using h⟩)
  · rintro (h | h) <;> rcases List.mem_map.mp h with ⟨n, hn, rfl⟩
    · exact ⟨n, hn, by simp⟩
    · exact ⟨n, hn, by simp⟩

theorem nodup_ids_append_fresh {ns : List GNode} {p : GNode}
    (h : (ns.map GNode.id).Nodup) (hf : p.id ∉ ns.map GNode.id) :
    ((ns ++ [p]).map GNode.id).Nodup := by
  simp only [List.map_append, List.map_cons, List.map_nil]
  rw [List.nodup_append]
  exact ⟨h, List.nodup_singleton _,
    fun a ha hb => hf ((List.mem_singleton.mp hb) ▸ ha)⟩

theorem nodup_expandOutStep (ps : Nat) (i : WId) (o : Option WId)
    (acc : List GNode × List GEdge) (g : TripleGroup)
    (h : (acc.1.map GNode.id).Nodup ∧ (acc.2.map GEdge.eid).Nodup) :
    ((expandOutStep ps i o acc g).1.map GNode.id).Nodup ∧
    ((expandOutStep ps i o acc g).2.map GEdge.eid).Nodup := by
  unfold expandOutStep
  dsimp only
  split
  · exact h
  · next hb =>
    have hfresh : (buildPropertyNode ps i g).id ∉ acc.1.map GNode.id := by
      intro hc
      rcases List.mem_map.mp hc with ⟨n, hn, hid⟩
      exact hb (List.any_eq_true.mpr ⟨n, hn, by simp [hid]⟩)
    exact ⟨nodup_ids_append_fresh h.1 hfresh, nodupEids_addEdgeIfAbsent _ _ h.2⟩

theorem nodup_expandInStep (ps : Nat) (i : WId)
    (acc : List GNode × List GEdge) (g : TripleGroup)
    (h : (acc.1.map GNode.id).Nodup ∧ (acc.2.map GEdge.eid).Nodup) :
    ((expandInStep ps i acc g).1.map GNode.id).Nodup ∧
    ((expandInStep ps i acc g).2.map GEdge.eid).Nodup := by
  unfold expandInStep
  dsimp only
  split
  · exact h
  · refine ⟨?_, nodupEids_addEdgeIfAbsent _ _ h.2⟩
    split
    · exact h.1
    · next hp =>
      have hfresh : (buildPropertyNode ps i g).id ∉ acc.1.map GNode.id :=
        fun hc => hp ((any_nid_mem acc.1 _).mpr hc)
      exact nodup_ids_append_fresh h.1 hfresh

theorem nodup_expandOutFold (ps : Nat) (i : WId) (o : Option WId)
    (gs : List TripleGroup) (acc : List GNode × List GEdge)
    (h : (acc.1.map GNode.id).Nodup ∧ (acc.2.map GEdge.eid).Nodup) :
    ((expandOutFold ps i o gs acc).1.map GNode.id).Nodup ∧
    ((expandOutFold ps i o gs acc).2.map GEdge.eid).Nodup :=
  foldl_preserve _ _ (fun acc g hh => nodup_expandOutStep ps i o acc g hh) gs acc h

theorem nodup_expandInFold (ps : Nat) (i : WId)
    (gs : List TripleGroup) (acc : List GNode × List GEdge)
    (h : (acc.1.map GNode.id).Nodup ∧ (acc.2.map GEdge.eid).Nodup) :
    ((expandInFold ps i gs acc).1.map GNode.id).Nodup ∧
    ((expandInFold ps i gs acc).2.map GEdge.eid).Nodup :=
  foldl_preserve _ _ (fun acc g hh => nodup_expandInStep ps i acc g hh) gs acc h

theorem perm_append_juggle {α : Type} (A B : List α) (x : α) :
    List.Perm ((A ++ B) ++ [x]) ((A ++ [x]) ++ B) := by
  rw [List.append_assoc, List.append_assoc]
  exact List.Perm.append_left A List.perm_append_comm

theorem expandOutFold_parallel (ps : Nat) (i : WId) (o : Option WId) :
    ∀ (gs : List TripleGroup) (ns ns' : List GNode) (es es' : List GEdge)
      (extra : List (WId × WId)),
    (∀ j, j ∈ ns'.map GNode.id ↔ j ∈ ns.map GNode.id) →
    List.Perm (es'.map GEdge.eid) (es.map GEdge.eid ++ extra) →
    (∀ q ∈ extra, q.1 ≠ i ∧ q.1 ∈ ns.map GNode.id) →
    (∀ j, j ∈ (expandOutFold ps i o gs (ns', es')).1.map GNode.id ↔
          j ∈ (expandOutFold ps i o gs (ns, es)).1.map GNode.id) ∧
    List.Perm ((expandOutFold ps i o gs (ns', es')).2.map GEdge.eid)
      ((expandOutFold ps i o gs (ns, es)).2.map GEdge.eid ++ extra) := by
  intro gs
  induction gs with
  | nil =>
    intro ns ns' es es' extra hns hperm hextra
    exact ⟨hns, hperm⟩
  | cons g gs ih =>
    intro ns ns' es es' extra hns hperm hextra
    have hmem : ∀ q, q ∈ es'.map GEdge.eid ↔
        (q ∈ es.map GEdge.eid ∨ q ∈ extra) := by
      intro q
      rw [hperm.mem_iff, List.mem_append]
    have hcons : ∀ a b, expandOutFold ps i o (g :: gs) (a, b)
        = expandOutFold ps i o gs (expandOutStep ps i o (a, b) g) := fun a b => rfl
    rw [hcons, hcons]
    by_cases hb : ((ns.any fun n => n.id == (buildPropertyNode ps i g).id
        || n.id == buildPropertyId g.predicateId (getNodeNumericIdOfOrigin o)) = true)
    · have hb' : ((ns'.any fun n => n.id == (buildPropertyNode ps i g).id
          || n.id == buildPropertyId g.predicateId (getNodeNumericIdOfOrigin o)) = true) := by
        rw [any_nid2_mem] at hb ⊢
        rcases hb with h | h
        · exact Or.inl ((hns _).mpr h)
        · exact Or.inr ((hns _).mpr h)
      have hstep : expandOutStep ps i o (ns, es) g = (ns, es) := by
        unfold expandOutStep
        dsimp only
        rw [if_pos hb]
      have hstep' : expandOutStep ps i o (ns', es') g = (ns', es') := by
        unfold expandOutStep
        dsimp only
        rw [if_pos hb']
      rw [hstep, hstep']
      exact ih ns ns' es es' extra hns hperm hextra
    · have hb' : ¬((ns'.any fun n => n.id == (buildPropertyNode ps i g).id
          || n.id == buildPropertyId g.predicateId (getNodeNumericIdOfOrigin o)) = true) := by
        rw [any_nid2_mem] at hb ⊢
        rintro (h | h)
        · exact hb (Or.inl ((hns _).mp h))
        · exact hb (Or.inr ((hns _).mp h))
      have hfresh : (buildPropertyNode ps i g).id ∉ ns.map GNode.id := by
        intro hc
        exact hb ((any_nid2_mem ns _ _).mpr (Or.inl hc))
      have hstep : expandOutStep ps i o (ns, es) g
          = (ns ++ [buildPropertyNode ps i g],
             addEdgeIfAbsent (buildEdge i (buildPropertyNode ps i g).id
               g.predicateUri i) es) := by
        unfold expandOutStep
        dsimp only
        rw [if_neg hb]
      have hstep' : expandOutStep ps i o (ns', es') g
          = (ns' ++ [buildPropertyNode ps i g],
             addEdgeIfAbsent (buildEdge i (buildPropertyNode ps i g).id
               g.predicateUri i) es') := by
        unfold expandOutStep
        dsimp only
        rw [if_neg hb']
      rw [hstep, hstep']
      have hns1 : ∀ j, j ∈ ((ns' ++ [buildPropertyNode ps i g]).map GNode.id) ↔
          j ∈ ((ns ++ [buildPropertyNode ps i g]).map GNode.id) := by
        intro j
        simp only [List.map_append, List.mem_append]
        constructor
        · rintro (h | h)
          · exact Or.inl ((hns _).mp h)
          · exact Or.inr h
        · rintro (h | h)
          · exact Or.inl ((hns _).mpr h)
          · exact Or.inr h
      have hextra1 : ∀ q ∈ extra, q.1 ≠ i ∧
          q.1 ∈ (ns ++ [buildPropertyNode ps i g]).map GNode.id := by
        intro q hq
        refine ⟨(hextra q hq).1, ?_⟩
        simp only [List.map_append, List.mem_append]
        exact Or.inl (hextra q hq).2
      set ed := buildEdge i (buildPropertyNode ps i g).id g.predicateUri i with hed
      have hd1 : ed.eid ∉ extra := by
        intro hc
        exact (hextra _ hc).1 rfl
      have hd2 : (ed.target, ed.source) ∉ extra := by
        intro hc
        exact hfresh (hextra _ hc).2
      by_cases hd : ed.eid ∈ es.map GEdge.eid ∨
          (ed.target, ed.source) ∈ es.map GEdge.eid
      · have hdmem : ed.eid ∈ es'.map GEdge.eid ∨
            (ed.target, ed.source) ∈ es'.map GEdge.eid := by
          rcases hd with h | h
          · exact Or.inl ((hmem _).mpr (Or.inl h))
          · exact Or.inr ((hmem _).mpr (Or.inl h))
        rw [addEdgeIfAbsent_of_mem _ _ hd, addEdgeIfAbsent_of_mem _ _ hdmem]
        exact ih _ _ _ _ extra hns1 hperm hextra1
      · push_neg at hd
        have hd1' : ed.eid ∉ es'.map GEdge.eid := by
          intro hc
          rcases (hmem _).mp hc with h | h
          · exact hd.1 h
          · exact hd1 h
        have hd2' : (ed.target, ed.source) ∉ es'.map GEdge.eid := by
          intro hc
          rcases (hmem _).mp hc with h | h
          · exact hd.2 h
          · exact hd2 h
        rw [addEdgeIfAbsent_of_not_mem _ _ hd.1 hd.2,
            addEdgeIfAbsent_of_not_mem _ _ hd1' hd2']
        have hperm1 : List.Perm ((es' ++ [ed]).map GEdge.eid)
            ((es ++ [ed]).map GEdge.eid ++ extra) := by
          simp only [List.map_append, List.map_cons, List.map_nil]
          exact (List.Perm.append_right _ hperm).trans
            (perm_append_juggle (es.map GEdge.eid) extra ed.eid)
        exact ih _ _ _ _ extra hns1 hperm1 hextra1

theorem buildPropertyNode_id (ps : Nat) (i : WId) (g : TripleGroup) :
    (buildPropertyNode ps i g).id = WId.p g.predicateId (getNodeNumericId i) := rfl

theorem buildEdge_eid (s t : WId) (l : String) (o : WId) :
    (buildEdge s t l o).eid = (s, t) := rfl

theorem inboundPatternEid_own (ps : Nat) (i : WId) (g : TripleGroup) :
    inboundPatternEid g.predicateId i ((buildPropertyNode ps i g).id, i) = true := by
  rw [buildPropertyNode_id]
  simp [inboundPatternEid]

theorem expandInFold_parallel (ps : Nat) (i : WId) (hi : ∀ pid a, i ≠ WId.p pid a) :
    ∀ (gs : List TripleGroup), (gs.map TripleGroup.predicateId).Nodup →
    ∀ (ns ns' : List GNode) (es es' : List GEdge) (extra : List (WId × WId)),
    (∀ j, j ∈ ns'.map GNode.id ↔ j ∈ ns.map GNode.id) →
    List.Perm (es'.map GEdge.eid) (es.map GEdge.eid ++ extra) →
    extra.Nodup →
    (∀ q ∈ extra, ∃ g ∈ gs, q = ((buildPropertyNode ps i g).id, i) ∧
        (buildPropertyNode ps i g).id ∈ ns.map GNode.id ∧
        (∀ e ∈ es, inboundEdgePattern g.predicateId i e = false) ∧
        ((i, (buildPropertyNode ps i g).id) ∉ es.map GEdge.eid)) →
    (∀ j, j ∈ (expandInFold ps i gs (ns', es')).1.map GNode.id ↔
          j ∈ (expandInFold ps i gs (ns, es)).1.map GNode.id) ∧
    List.Perm ((expandInFold ps i gs (ns', es')).2.map GEdge.eid)
      ((expandInFold ps i gs (ns, es)).2.map GEdge.eid) := by
  intro gs
  induction gs with
  | nil =>
    intro hpids ns ns' es es' extra hns hperm hnd hextra
    have hnil : extra = [] := by
      rcases extra with _ | ⟨q, t⟩
      · rfl
      · rcases hextra q (List.mem_cons_self q t) with ⟨g, hg, -⟩
        cases hg
    subst hnil
    rw [List.append_nil] at hperm
    exact ⟨hns, hperm⟩
  | cons g gs ih =>
    intro hpids ns ns' es es' extra hns hperm hnd hextra
    have hpc : g.predicateId ∉ gs.map TripleGroup.predicateId ∧
        (gs.map TripleGroup.predicateId).Nodup := List.nodup_cons.mp hpids
    have hpid_head : g.predicateId ∉ gs.map TripleGroup.predicateId := hpc.1
    have hpids' : (gs.map TripleGroup.predicateId).Nodup := hpc.2
    have hmemq : ∀ q, q ∈ es'.map GEdge.eid ↔
        (q ∈ es.map GEdge.eid ∨ q ∈ extra) := by
      intro q
      rw [hperm.mem_iff, List.mem_append]
    have hgid : ∀ g' ∈ gs,
        (buildPropertyNode ps i g').id ≠ (buildPropertyNode ps i g).id := by
      intro g' hg' hc
      rw [buildPropertyNode_id, buildPropertyNode_id] at hc
      have hpe : g'.predicateId = g.predicateId := by
        simpa using congrArg (fun w => getPredicateNumericId w) hc
      exact hpid_head (hpe ▸ List.mem_map_of_mem TripleGroup.predicateId hg')
    have hcons : ∀ a b, expandInFold ps i (g :: gs) (a, b)
        = expandInFold ps i gs (expandInStep ps i (a, b) g) := fun a b => rfl
    rw [hcons, hcons]
    by_cases hqmem : ((buildPropertyNode ps i g).id, i) ∈ extra
    · rcases hextra _ hqmem with ⟨g', hg', hq', hbp, hcp, hdp⟩
      have hg'eq : g' = g := by
        rcases List.mem_cons.mp hg' with rfl | hmem'
        · rfl
        · exfalso
          have : (buildPropertyNode ps i g').id = (buildPropertyNode ps i g).id := by
            have := congrArg Prod.fst hq'
            exact this.symm
          exact hgid g' hmem' this
      subst hg'eq
      have hgb : (es.any (inboundEdgePattern g'.predicateId i)) = false := by
        rw [Bool.eq_false_iff]
        intro hcc
        rcases List.any_eq_true.mp hcc with ⟨e, he, hpp⟩
        rw [hcp e he] at hpp
        cases hpp
      have hpn : (ns.any fun n => n.id == (buildPropertyNode ps i g').id) = true :=
        (any_nid_mem ns _).mpr hbp
      have hstep : expandInStep ps i (ns, es) g'
          = (ns, addEdgeIfAbsent (buildEdge (buildPropertyNode ps i g').id i
              g'.predicateUri i) es) := by
        unfold expandInStep
        dsimp only
        rw [if_neg (by rw [hgb]; exact Bool.false_ne_true), if_pos hpn]
      have hgb' : (es'.any (inboundEdgePattern g'.predicateId i)) = true := by
        rw [any_inPattern_iff]
        refine ⟨((buildPropertyNode ps i g').id, i), (hmemq _).mpr (Or.inr hqmem), ?_⟩
        exact inboundPatternEid_own ps i g'
      have hstep' : expandInStep ps i (ns', es') g' = (ns', es') := by
        unfold expandInStep
        dsimp only
        rw [if_pos hgb']
      rw [hstep, hstep']
      have hnd1 : (buildEdge (buildPropertyNode ps i g').id i g'.predicateUri i).eid
          ∉ es.map GEdge.eid := by
        intro hcc
        rcases List.mem_map.mp hcc with ⟨e, he, heq⟩
        have hpp := hcp e he
        rw [inboundEdgePattern_eq_eid, heq, buildEdge_eid,
          inboundPatternEid_own ps i g'] at hpp
        cases hpp
      have hadd : addEdgeIfAbsent (buildEdge (buildPropertyNode ps i g').id i
            g'.predicateUri i) es
          = es ++ [buildEdge (buildPropertyNode ps i g').id i g'.predicateUri i] :=
        addEdgeIfAbsent_of_not_mem _ _ hnd1 hdp
      rw [hadd]
      rcases List.append_of_mem hqmem with ⟨sl, tl, rfl⟩
      have hmid : List.Perm (sl ++ ((buildPropertyNode ps i g').id, i) :: tl)
          ((((buildPropertyNode ps i g').id, i)) :: (sl ++ tl)) := List.perm_middle
      have hnd2 : ((((buildPropertyNode ps i g').id, i)) :: (sl ++ tl)).Nodup :=
        hmid.nodup hnd
      have hq_nin : ((buildPropertyNode ps i g').id, i) ∉ sl ++ tl :=
        (List.nodup_cons.mp hnd2).1
      have hnd3 : (sl ++ tl).Nodup := (List.nodup_cons.mp hnd2).2
      refine ih hpids' ns ns' _ es' (sl ++ tl) hns ?_ hnd3 ?_
      · have h2 : List.Perm (es'.map GEdge.eid)
            (es.map GEdge.eid ++ ((((buildPropertyNode ps i g').id, i))
              :: (sl ++ tl))) :=
          hperm.trans (List.Perm.append_left _ hmid)
        have h3 : (es ++ [buildEdge (buildPropertyNode ps i g').id i
              g'.predicateUri i]).map GEdge.eid ++ (sl ++ tl)
            = es.map GEdge.eid ++ ((((buildPropertyNode ps i g').id, i))
              :: (sl ++ tl)) := by
          simp [List.append_assoc, buildEdge_eid]
        rw [h3]
        exact h2
      · intro q hq
        have hq0 : q ∈ sl ++ ((buildPropertyNode ps i g').id, i) :: tl := by
          rcases List.mem_append.mp hq with h | h
          · exact List.mem_append_left _ h
          · exact List.mem_append_right _ (List.mem_cons_of_mem _ h)
        have hqne : q ≠ ((buildPropertyNode ps i g').id, i) :=
          fun hc => hq_nin (hc ▸ hq)
        rcases hextra q hq0 with ⟨g2, hg2, hq2, hb2, hc2, hd2⟩
        have hg2' : g2 ∈ gs := by
          rcases List.mem_cons.mp hg2 with rfl | h
          · exact absurd hq2 hqne
          · exact h
        refine ⟨g2, hg2', hq2, hb2, ?_, ?_⟩
        · intro e he
          rcases List.mem_append.mp he with he | he
          · exact hc2 e he
          · rcases List.mem_singleton.mp he with rfl
            rw [inboundEdgePattern_eq_eid]
            show inboundPatternEid g2.predicateId i
              ((buildPropertyNode ps i g').id, i) = false
            rw [buildPropertyNode_id]
            simp only [inboundPatternEid]
            have : g'.predicateId ≠ g2.predicateId := by
              intro hc
              exact hpid_head (hc ▸ List.mem_map_of_mem TripleGroup.predicateId hg2')
            simp [this]
        · intro hcc
          simp only [List.map_append, List.map_cons, List.map_nil,
            List.mem_append, List.mem_singleton] at hcc
          rcases hcc with hcc | hcc
          · exact hd2 hcc
          · have : i = (buildPropertyNode ps i g').id := congrArg Prod.fst hcc
            rw [buildPropertyNode_id] at this
            exact hi _ _ this
    · have hnoextra : ∀ q ∈ extra, inboundPatternEid g.predicateId i q = false := by
        intro q hq
        rcases hextra q hq with ⟨g2, hg2, rfl, -, -, -⟩
        have hg2' : g2 ∈ gs := by
          rcases List.mem_cons.mp hg2 with rfl | h
          · exact absurd hq hqmem
          · exact h
        rw [buildPropertyNode_id]
        simp only [inboundPatternEid]
        have : g2.predicateId ≠ g.predicateId := by
          intro hc
          exact hpid_head (hc ▸ List.mem_map_of_mem TripleGroup.predicateId hg2')
        simp [this]
      have hguard : (es'.any (inboundEdgePattern g.predicateId i))
          = (es.any (inboundEdgePattern g.predicateId i)) := by
        by_cases hcase : (es.any (inboundEdgePattern g.predicateId i)) = true
        · rw [hcase]
          rcases (any_inPattern_iff es _ _).mp hcase with ⟨q, hq, hqp⟩
          exact (any_inPattern_iff es' _ _).mpr ⟨q, (hmemq q).mpr (Or.inl hq), hqp⟩
        · rw [Bool.eq_false_iff.mpr hcase, Bool.eq_false_iff]
          intro hcc
          rcases (any_inPattern_iff es' _ _).mp hcc with ⟨q, hq, hqp⟩
          rcases (hmemq q).mp hq with hq' | hq'
          · exact hcase ((any_inPattern_iff es _ _).mpr ⟨q, hq', hqp⟩)
          · rw [hnoextra q hq'] at hqp
            cases hqp
      by_cases hgb : (es.any (inboundEdgePattern g.predicateId i)) = true
      · have hstep : expandInStep ps i (ns, es) g = (ns, es) := by
          unfold expandInStep
          dsimp only
          rw [if_pos hgb]
        have hstep' : expandInStep ps i (ns', es') g = (ns', es') := by
          unfold expandInStep
          dsimp only
          rw [if_pos (hguard.trans hgb)]
        rw [hstep, hstep']
        refine ih hpids' ns ns' es es' extra hns hperm hnd ?_
        intro q hq
        rcases hextra q hq with ⟨g2, hg2, hq2, hb2, hc2, hd2⟩
        have hg2' : g2 ∈ gs := by
          rcases List.mem_cons.mp hg2 with rfl | h
          · exact absurd (hq2 ▸ hq) hqmem
          · exact h
        exact ⟨g2, hg2', hq2, hb2, hc2, hd2⟩
      · have hgbf : (es.any (inboundEdgePattern g.predicateId i)) = false :=
          Bool.eq_false_iff.mpr hgb
        have hgbf' : (es'.any (inboundEdgePattern g.predicateId i)) = false := by
          rw [hguard]; exact hgbf
        have hfree : ∀ e ∈ es, inboundEdgePattern g.predicateId i e = false := by
          intro e he
          by_contra hc
          exact hgb (List.any_eq_true.mpr ⟨e, he, eq_true_of_ne_false hc⟩)
        have hedcase : ((buildEdge (buildPropertyNode ps i g).id i
            g.predicateUri i).eid ∈ es'.map GEdge.eid) ↔
            ((buildEdge (buildPropertyNode ps i g).id i
              g.predicateUri i).eid ∈ es.map GEdge.eid) := by
          rw [hmemq]
          constructor
          · rintro (h | h)
            · exact h
            · exact absurd h hqmem
          · exact Or.inl
        have hinvcase : ((i, (buildPropertyNode ps i g).id) ∈ es'.map GEdge.eid) ↔
            ((i, (buildPropertyNode ps i g).id) ∈ es.map GEdge.eid) := by
          rw [hmemq]
          constructor
          · rintro (h | h)
            · exact h
            · rcases hextra _ h with ⟨g2, hg2, hq2, -, -, -⟩
              have : i = (buildPropertyNode ps i g2).id := congrArg Prod.fst hq2
              rw [buildPropertyNode_id] at this
              exact absurd this (hi _ _)
          · exact Or.inl
        have hextra_tail : ∀ q ∈ extra, ∃ g2 ∈ gs,
            q = ((buildPropertyNode ps i g2).id, i) ∧
            (buildPropertyNode ps i g2).id ∈ ns.map GNode.id ∧
            (∀ e ∈ es, inboundEdgePattern g2.predicateId i e = false) ∧
            ((i, (buildPropertyNode ps i g2).id) ∉ es.map GEdge.eid) := by
          intro q hq
          rcases hextra q hq with ⟨g2, hg2, hq2, hb2, hc2, hd2⟩
          have hg2' : g2 ∈ gs := by
            rcases List.mem_cons.mp hg2 with rfl | h
            · exact absurd (hq2 ▸ hq) hqmem
            · exact h
          exact ⟨g2, hg2', hq2, hb2, hc2, hd2⟩
        by_cases hpn : (ns.any fun n => n.id == (buildPropertyNode ps i g).id) = true
        · have hpn' : (ns'.any fun n => n.id == (buildPropertyNode ps i g).id) = true :=
            (any_nid_mem ns' _).mpr ((hns _).mpr ((any_nid_mem ns _).mp hpn))
          have hstep : expandInStep ps i (ns, es) g
              = (ns, addEdgeIfAbsent (buildEdge (buildPropertyNode ps i g).id i
                  g.predicateUri i) es) := by
            unfold expandInStep
            dsimp only
            rw [if_neg (by rw [hgbf]; exact Bool.false_ne_true), if_pos hpn]
          have hstep' : expandInStep ps i (ns', es') g
              = (ns', addEdgeIfAbsent (buildEdge (buildPropertyNode ps i g).id i
                  g.predicateUri i) es') := by
            unfold expandInStep
            dsimp only
            rw [if_neg (by rw [hgbf']; exact Bool.false_ne_true), if_pos hpn']
          rw [hstep, hstep']
          by_cases hd : (buildEdge (buildPropertyNode ps i g).id i
                g.predicateUri i).eid ∈ es.map GEdge.eid ∨
              ((buildEdge (buildPropertyNode ps i g).id i g.predicateUri i).target,
               (buildEdge (buildPropertyNode ps i g).id i g.predicateUri i).source)
                ∈ es.map GEdge.eid
          · have hd' : (buildEdge (buildPropertyNode ps i g).id i
                  g.predicateUri i).eid ∈ es'.map GEdge.eid ∨
                ((buildEdge (buildPropertyNode ps i g).id i g.predicateUri i).target,
                 (buildEdge (buildPropertyNode ps i g).id i g.predicateUri i).source)
                  ∈ es'.map GEdge.eid := by
              rcases hd with h | h
              · exact Or.inl (hedcase.mpr h)
              · exact Or.inr (hinvcase.mpr h)
            rw [addEdgeIfAbsent_of_mem _ _ hd, addEdgeIfAbsent_of_mem _ _ hd']
            exact ih hpids' ns ns' es es' extra hns hperm hnd hextra_tail
          · push_neg at hd
            have hd1' : (buildEdge (buildPropertyNode ps i g).id i
                g.predicateUri i).eid ∉ es'.map GEdge.eid :=
              fun hc => hd.1 (hedcase.mp hc)
            have hd2' : ((buildEdge (buildPropertyNode ps i g).id i
                  g.predicateUri i).target,
                (buildEdge (buildPropertyNode ps i g).id i g.predicateUri i).source)
                  ∉ es'.map GEdge.eid :=
              fun hc => hd.2 (hinvcase.mp hc)
            rw [addEdgeIfAbsent_of_not_mem _ _ hd.1 hd.2,
                addEdgeIfAbsent_of_not_mem _ _ hd1' hd2']
            refine ih hpids' ns ns' _ _ extra hns ?_ hnd ?_
            · simp only [List.map_append, List.map_cons, List.map_nil]
              exact (List.Perm.append_right _ hperm).trans
                (perm_append_juggle (es.map GEdge.eid) extra _)
            · intro q hq
              rcases hextra_tail q hq with ⟨g2, hg2, hq2, hb2, hc2, hd2⟩
              refine ⟨g2, hg2, hq2, hb2, ?_, ?_⟩
              · intro e he
                rcases List.mem_append.mp he with he | he
                · exact hc2 e he
                · rcases List.mem_singleton.mp he with rfl
                  rw [inboundEdgePattern_eq_eid]
                  show inboundPatternEid g2.predicateId i
                    ((buildPropertyNode ps i g).id, i) = false
                  rw [buildPropertyNode_id]
                  simp only [inboundPatternEid]
                  have : g.predicateId ≠ g2.predicateId := by
                    intro hc
                    exact hpid_head
                      (hc ▸ List.mem_map_of_mem TripleGroup.predicateId hg2)
                  simp [this]
              · intro hcc
                simp only [List.map_append, List.map_cons, List.map_nil,
                  List.mem_append, List.mem_singleton] at hcc
                rcases hcc with hcc | hcc
                · exact hd2 hcc
                · have : i = (buildPropertyNode ps i g).id := congrArg Prod.fst hcc
                  rw [buildPropertyNode_id] at this
                  exact hi _ _ this
        · have hpn' : ¬((ns'.any fun n => n.id == (buildPropertyNode ps i g).id)
              = true) := by
            intro hc
            exact hpn ((any_nid_mem ns _).mpr ((hns _).mp ((any_nid_mem ns' _).mp hc)))
          have hstep : expandInStep ps i (ns, es) g
              = (ns ++ [buildPropertyNode ps i g],
                 addEdgeIfAbsent (buildEdge (buildPropertyNode ps i g).id i
                   g.predicateUri i) es) := by
            unfold expandInStep
            dsimp only
            rw [if_neg (by rw [hgbf]; exact Bool.false_ne_true), if_neg hpn]
          have hstep' : expandInStep ps i (ns', es') g
              = (ns' ++ [buildPropertyNode ps i g],
                 addEdgeIfAbsent (buildEdge (buildPropertyNode ps i g).id i
                   g.predicateUri i) es') := by
            unfold expandInStep
            dsimp only
            rw [if_neg (by rw [hgbf']; exact Bool.false_ne_true), if_neg hpn']
          rw [hstep, hstep']
          have hns1 : ∀ j, j ∈ ((ns' ++ [buildPropertyNode ps i g]).map GNode.id) ↔
              j ∈ ((ns ++ [buildPropertyNode ps i g]).map GNode.id) := by
            intro j
            simp only [List.map_append, List.mem_append]
            constructor
            · rintro (h | h)
              · exact Or.inl ((hns _).mp h)
              · exact Or.inr h
            · rintro (h | h)
              · exact Or.inl ((hns _).mpr h)
              · exact Or.inr h
          have hextra_push : ∀ q ∈ extra, ∃ g2 ∈ gs,
              q = ((buildPropertyNode ps i g2).id, i) ∧
              (buildPropertyNode ps i g2).id
                ∈ (ns ++ [buildPropertyNode ps i g]).map GNode.id ∧
              (∀ e ∈ es, inboundEdgePattern g2.predicateId i e = false) ∧
              ((i, (buildPropertyNode ps i g2).id) ∉ es.map GEdge.eid) := by
            intro q hq
            rcases hextra_tail q hq with ⟨g2, hg2, hq2, hb2, hc2, hd2⟩
            refine ⟨g2, hg2, hq2, ?_, hc2, hd2⟩
            simp only [List.map_append, List.mem_append]
            exact Or.inl hb2
          by_cases hd : (buildEdge (buildPropertyNode ps i g).id i
                g.predicateUri i).eid ∈ es.map GEdge.eid ∨
              ((buildEdge (buildPropertyNode ps i g).id i g.predicateUri i).target,
               (buildEdge (buildPropertyNode ps i g).id i g.predicateUri i).source)
                ∈ es.map GEdge.eid
          · have hd' : (buildEdge (buildPropertyNode ps i g).id i
                  g.predicateUri i).eid ∈ es'.map GEdge.eid ∨
                ((buildEdge (buildPropertyNode ps i g).id i g.predicateUri i).target,
                 (buildEdge (buildPropertyNode ps i g).id i g.predicateUri i).source)
                  ∈ es'.map GEdge.eid := by
              rcases hd with h | h
              · exact Or.inl (hedcase.mpr h)
              · exact Or.inr (hinvcase.mpr h)
            rw [addEdgeIfAbsent_of_mem _ _ hd, addEdgeIfAbsent_of_mem _ _ hd']
            exact ih hpids' _ _ es es' extra hns1 hperm hnd hextra_push
          · push_neg at hd
            have hd1' : (buildEdge (buildPropertyNode ps i g).id i
                g.predicateUri i).eid ∉ es'.map GEdge.eid :=
              fun hc => hd.1 (hedcase.mp hc)
            have hd2' : ((buildEdge (buildPropertyNode ps i g).id i
                  g.predicateUri i).target,
                (buildEdge (buildPropertyNode ps i g).id i g.predicateUri i).source)
                  ∉ es'.map GEdge.eid :=
              fun hc => hd.2 (hinvcase.mp hc)
            rw [addEdgeIfAbsent_of_not_mem _ _ hd.1 hd.2,
                addEdgeIfAbsent_of_not_mem _ _ hd1' hd2']
            refine ih hpids' _ _ _ _ extra hns1 ?_ hnd ?_
            · simp only [List.map_append, List.map_cons, List.map_nil]
              exact (List.Perm.append_right _ hperm).trans
                (perm_append_juggle (es.map GEdge.eid) extra _)
            · intro q hq
              rcases hextra_push q hq with ⟨g2, hg2, hq2, hb2, hc2, hd2⟩
              refine ⟨g2, hg2, hq2, hb2, ?_, ?_⟩
              · intro e he
                rcases List.mem_append.mp he with he | he
                · exact hc2 e he
                · rcases List.mem_singleton.mp he with rfl
                  rw [inboundEdgePattern_eq_eid]
                  show inboundPatternEid g2.predicateId i
                    ((buildPropertyNode ps i g).id, i) = false
                  rw [buildPropertyNode_id]
                  simp only [inboundPatternEid]
                  have : g.predicateId ≠ g2.predicateId := by
                    intro hc
                    exact hpid_head
                      (hc ▸ List.mem_map_of_mem TripleGroup.predicateId hg2)
                  simp [this]
              · intro hcc
                simp only [List.map_append, List.map_cons, List.map_nil,
                  List.mem_append, List.mem_singleton] at hcc
                rcases hcc with hcc | hcc
                · exact hd2 hcc
                · have : i = (buildPropertyNode ps i g).id := congrArg Prod.fst hcc
                  rw [buildPropertyNode_id] at this
                  exact hi _ _ this

theorem buildPropertyNode_originId (ps : Nat) (i : WId) (g : TripleGroup) :
    (buildPropertyNode ps i g).data.originId = some i := rfl

theorem originReach_congr_origin {ns : List GNode} {ws : List WId} {x y : GNode}
    (h : y.data.originId = x.data.originId) (hr : OriginReach ns ws x) :
    OriginReach ns ws y := by
  cases hr with
  | base x w hw hmem => exact .base y w (h.trans hw) hmem
  | step x z hz ho hr => exact .step y z hz (h.trans ho) hr

theorem originReach_transfer {ns ms : List GNode} {ws : List WId} {x : GNode}
    (h : SameOrig ns ms) (hr : OriginReach ns ws x) : OriginReach ms ws x := by
  induction hr with
  | base x w hw hmem => exact .base x w hw hmem
  | step x y hy ho hr ih =>
    rcases h y hy with ⟨z, hz, hzid, hzo⟩
    exact .step x z hz (by rw [ho, hzid]) (originReach_congr_origin hzo ih)

theorem sameOrig_refl (ns : List GNode) : SameOrig ns ns :=
  fun y hy => ⟨y, hy, rfl, rfl⟩

theorem sameOrig_trans {a b c : List GNode} (h1 : SameOrig a b) (h2 : SameOrig b c) :
    SameOrig a c := by
  intro y hy
  rcases h1 y hy with ⟨z, hz, hz1, hz2⟩
  rcases h2 z hz with ⟨w, hw, hw1, hw2⟩
  exact ⟨w, hw, hw1.trans hz1, hw2.trans hz2⟩

theorem sameOrig_append {a a2 b b2 : List GNode} (h1 : SameOrig a a2)
    (h2 : SameOrig b b2) : SameOrig (a ++ b) (a2 ++ b2) := by
  intro y hy
  rcases List.mem_append.mp hy with h | h
  · rcases h1 y h with ⟨z, hz, hz1, hz2⟩
    exact ⟨z, List.mem_append_left _ hz, hz1, hz2⟩
  · rcases h2 y h with ⟨z, hz, hz1, hz2⟩
    exact ⟨z, List.mem_append_right _ hz, hz1, hz2⟩

theorem sameOrig_updateNode_left (ns : List GNode) (i : WId) (f : GNode → GNode)
    (hf : ∀ x, (f x).id = x.id ∧ (f x).data.originId = x.data.originId) :
    SameOrig (updateNode ns i f) ns := by
  intro y hy
  rcases (mem_updateNode ns i f y).mp hy with ⟨z, hz, rfl⟩
  refine ⟨z, hz, ?_, ?_⟩ <;> by_cases h : z.id = i <;>
    simp [h, (hf z).1, (hf z).2]

theorem sameOrig_updateNode_right (ns : List GNode) (i : WId) (f : GNode → GNode)
    (hf : ∀ x, (f x).id = x.id ∧ (f x).data.originId = x.data.originId) :
    SameOrig ns (updateNode ns i f) := by
  intro y hy
  refine ⟨if y.id = i then f y else y,
    (mem_updateNode ns i f _).mpr ⟨y, hy, rfl⟩, ?_, ?_⟩ <;>
    by_cases h : y.id = i <;> simp [h, (hf y).1, (hf y).2]

theorem originReach_append_fresh {K B : List GNode} {ws : List WId}
    (hclosed : ∀ y ∈ K, ∀ j, y.data.originId = some j → j ∈ K.map GNode.id)
    (hfresh : ∀ p ∈ B, p.id ∉ K.map GNode.id) :
    ∀ {x : GNode}, OriginReach (K ++ B) ws x → x ∈ K → OriginReach K ws x := by
  intro x hr
  induction hr with
  | base x w hw hmem => exact fun _ => .base x w hw hmem
  | step x y hy ho hr ih =>
    intro hx
    have hyid : y.id ∈ K.map GNode.id := hclosed x hx y.id ho
    have hyK : y ∈ K := by
      rcases List.mem_append.mp hy with h | h
      · exact h
      · exact absurd hyid (hfresh y h)
    exact .step x y hyK ho (ih hyK)

theorem removeDescAux_fresh_spec (t : WId) (u K B : List GNode)
    (hso1 : SameOrig u (K ++ B)) (hso2 : SameOrig (K ++ B) u)
    (hKnr : ∀ z ∈ K, ¬ OriginReach (K ++ B) [t] z)
    (hBor : ∀ p ∈ B, p.data.originId = some t) :
    (∀ i, i ∈ (removeDescAux [t] u).2 ↔ i ∈ B.map GNode.id) ∧
    (∀ j, j ∈ (removeDescAux [t] u).1.map GNode.id ↔ j ∈ K.map GNode.id) := by
  constructor
  · intro i
    rw [removeDescAux_mem_snd]
    constructor
    · rintro ⟨x, hx, rfl, hr⟩
      rcases hso1 x hx with ⟨z, hz, hzid, hzo⟩
      have hrz : OriginReach (K ++ B) [t] z :=
        originReach_congr_origin hzo (originReach_transfer hso1 hr)
      rcases List.mem_append.mp hz with h | h
      · exact absurd hrz (hKnr z h)
      · exact hzid ▸ List.mem_map_of_mem GNode.id h
    · intro hi
      rcases List.mem_map.mp hi with ⟨p, hp, rfl⟩
      rcases hso2 p (List.mem_append_right _ hp) with ⟨x, hx, hxid, hxo⟩
      refine ⟨x, hx, hxid, .base x t ?_ (List.mem_singleton.mpr rfl)⟩
      rw [hxo]
      exact hBor p hp
  · intro j
    constructor
    · intro hj
      rcases List.mem_map.mp hj with ⟨x, hx, rfl⟩
      rcases (removeDescAux_mem_fst _ _ x).mp hx with ⟨hxu, hxnr⟩
      rcases hso1 x hxu with ⟨z, hz, hzid, hzo⟩
      rcases List.mem_append.mp hz with h | h
      · exact hzid ▸ List.mem_map_of_mem GNode.id h
      · exact absurd (.base x t (hzo ▸ hBor z h) (List.mem_singleton.mpr rfl)) hxnr
    · intro hj
      rcases List.mem_map.mp hj with ⟨z, hz, rfl⟩
      rcases hso2 z (List.mem_append_left _ hz) with ⟨x, hx, hxid, hxo⟩
      have hxnr : ¬ OriginReach u [t] x := by
        intro hr
        exact hKnr z hz (originReach_congr_origin hxo.symm
          (originReach_transfer hso1 hr))
      exact hxid ▸ List.mem_map_of_mem GNode.id
        ((removeDescAux_mem_fst _ _ x).mpr ⟨hx, hxnr⟩)

theorem expandCore_def (ps : Nat) (i : WId) (o : Option WId)
    (outs ins : Page TripleGroup) (A : List GNode) (E : List GEdge) :
    expandCore ps i o outs ins A E
      = expandInFold ps i ins.items
          (updateNode (expandOutFold ps i o outs.items
              (updateNode (removeDescAux [i] A).1 i (setOutTotal outs.total),
               E.filter (fun e => !((removeDescAux [i] A).2.contains e.source
                 || (removeDescAux [i] A).2.contains e.target)))).1
            i (setInTotal ins.total),
           (expandOutFold ps i o outs.items
              (updateNode (removeDescAux [i] A).1 i (setOutTotal outs.total),
               E.filter (fun e => !((removeDescAux [i] A).2.contains e.source
                 || (removeDescAux [i] A).2.contains e.target)))).2) := rfl

theorem expandNodeNext_no_sel (ps : Nat) (node : GNode)
    (outs ins : Page TripleGroup) (st : WState) (hsel : st.selectedId = none) :
    expandNodeNext ps node none none outs ins st
      = { st with
          error := none, loading := false,
          nodes := (expandCore ps node.id node.data.originId outs ins
            (updateNode st.nodes node.id (setExpandedFilters
              (expandNodeOutFilter ps (getNodeNumericId node.id) node none)
              (expandNodeInFilter ps (getNodeNumericId node.id) node none)))
            st.edges).1,
          edges := (expandCore ps node.id node.data.originId outs ins
            (updateNode st.nodes node.id (setExpandedFilters
              (expandNodeOutFilter ps (getNodeNumericId node.id) node none)
              (expandNodeInFilter ps (getNodeNumericId node.id) node none)))
            st.edges).2 } := by
  unfold expandNodeNext expandCore
  dsimp only
  rw [removeChildren_of_no_sel node.id
    { nodes := updateNode st.nodes node.id
        (setExpandedFilters (expandNodeOutFilter ps (getNodeNumericId node.id) node none)
          (expandNodeInFilter ps (getNodeNumericId node.id) node none)),
      edges := st.edges, loading := true, error := none, selectedId := st.selectedId,
      rootId := st.rootId, nOutFilter := st.nOutFilter, nInFilter := st.nInFilter,
      pOutFilter := st.pOutFilter, pInFilter := st.pInFilter, pLitFilter := st.pLitFilter,
      childTotals := st.childTotals } hsel]

theorem expandCore_parallel (ps k : Nat) (i : WId) (o : Option WId)
    (outs ins : Page TripleGroup) (A : List GNode) (E : List GEdge)
    (F : GNode → GNode)
    (hik : i = WId.n k)
    (hF : ∀ x, (F x).id = x.id ∧ (F x).data.originId = x.data.originId)
    (hand : (A.map GNode.id).Nodup)
    (hend : (E.map GEdge.eid).Nodup)
    (hoc : ∀ x ∈ A, ∀ j, x.data.originId = some j → j ∈ A.map GNode.id)
    (hec : ∀ e ∈ E, e.source ∈ A.map GNode.id ∧ e.target ∈ A.map GNode.id)
    (hpin : (ins.items.map TripleGroup.predicateId).Nodup) :
    (∀ j, j ∈ (expandCore ps i o outs ins
        (updateNode (expandCore ps i o outs ins A E).1 i F)
        (expandCore ps i o outs ins A E).2).1.map GNode.id ↔
      j ∈ (expandCore ps i o outs ins A E).1.map GNode.id) ∧
    List.Perm ((expandCore ps i o outs ins
        (updateNode (expandCore ps i o outs ins A E).1 i F)
        (expandCore ps i o outs ins A E).2).2.map GEdge.eid)
      ((expandCore ps i o outs ins A E).2.map GEdge.eid) ∧
    ((expandCore ps i o outs ins A E).1.map GNode.id).Nodup ∧
    ((expandCore ps i o outs ins A E).2.map GEdge.eid).Nodup ∧
    ((expandCore ps i o outs ins
        (updateNode (expandCore ps i o outs ins A E).1 i F)
        (expandCore ps i o outs ins A E).2).1.map GNode.id).Nodup ∧
    ((expandCore ps i o outs ins
        (updateNode (expandCore ps i o outs ins A E).1 i F)
        (expandCore ps i o outs ins A E).2).2.map GEdge.eid).Nodup := by
  rw [expandCore_def]
  rw [expandCore_def]
  set r1 := removeDescAux [i] A with hr1
  set e3 := E.filter (fun e => !(r1.2.contains e.source || r1.2.contains e.target))
    with he3
  set n4 := updateNode r1.1 i (setOutTotal outs.total) with hn4
  set a1 := expandOutFold ps i o outs.items (n4, e3) with ha1
  set m2 := updateNode a1.1 i (setInTotal ins.total) with hm2
  set b1 := expandInFold ps i ins.items (m2, a1.2) with hb1
  set A2 := updateNode b1.1 i F with hA2
  set r2 := removeDescAux [i] A2 with hr2
  set e3' := b1.2.filter (fun e => !(r2.2.contains e.source || r2.2.contains e.target))
    with he3p
  set n4' := updateNode r2.1 i (setOutTotal outs.total) with hn4p
  set a1' := expandOutFold ps i o outs.items (n4', e3') with ha1p
  set m2' := updateNode a1'.1 i (setInTotal ins.total) with hm2p
  set b2 := expandInFold ps i ins.items (m2', a1'.2) with hb2
  -- pass-1 structure
  have hKsub : r1.1.Sublist A := by
    rw [hr1]
    exact removeDescAux_sublist (2 * A.length + [i].length) [i] A le_rfl
  have hKnd : (r1.1.map GNode.id).Nodup := hand.sublist (hKsub.map GNode.id)
  have hn4ids : n4.map GNode.id = r1.1.map GNode.id := by
    rw [hn4]
    exact updateNode_map_id _ _ _ (fun x => rfl)
  have he3sub : e3.Sublist E := by
    rw [he3]
    exact List.filter_sublist E
  have he3nd : (e3.map GEdge.eid).Nodup := hend.sublist (he3sub.map GEdge.eid)
  have hnd1 := nodup_expandOutFold ps i o outs.items (n4, e3)
    ⟨by show (n4.map GNode.id).Nodup; rw [hn4ids]; exact hKnd, he3nd⟩
  rw [← ha1] at hnd1
  have hm2ids : m2.map GNode.id = a1.1.map GNode.id := by
    rw [hm2]
    exact updateNode_map_id _ _ _ (fun x => rfl)
  have hnd2 := nodup_expandInFold ps i ins.items (m2, a1.2)
    ⟨by show (m2.map GNode.id).Nodup; rw [hm2ids]; exact hnd1.1, hnd1.2⟩
  rw [← hb1] at hnd2
  obtain ⟨lOut, eOut, hO1, hO2, hO3, hO4⟩ := expandOutFold_append ps i o outs.items n4 e3
  rw [← ha1] at hO1 hO2
  obtain ⟨lIn, eIn, hI1, hI2, hI3, hI4⟩ := expandInFold_append ps i ins.items m2 a1.2
  rw [← hb1] at hI1 hI2
  -- the survivors keep their origins among the survivors
  have hKcl : ∀ y ∈ r1.1, ∀ j, y.data.originId = some j → j ∈ r1.1.map GNode.id := by
    intro y hy j hj
    have hy0 : y ∈ (removeDescAux [i] A).1 := by rw [← hr1]; exact hy
    have hy' := (removeDescAux_mem_fst [i] A y).mp hy0
    have hjA : j ∈ A.map GNode.id := hoc y hy'.1 j hj
    rcases List.mem_map.mp hjA with ⟨z, hzA, hzid⟩
    by_cases hrz : OriginReach A [i] z
    · exact absurd (OriginReach.step y z hzA (by rw [hj, hzid]) hrz) hy'.2
    · have hzk : z ∈ r1.1 := by
        rw [hr1]
        exact (removeDescAux_mem_fst [i] A z).mpr ⟨hzA, hrz⟩
      exact hzid ▸ List.mem_map_of_mem GNode.id hzk
  -- the pushed property nodes are fresh and anchored at the expanded node
  have hfreshB : ∀ p ∈ lOut ++ lIn, p.id ∉ r1.1.map GNode.id := by
    intro p hp
    rcases List.mem_append.mp hp with h | h
    · rcases hO3 p h with ⟨g, hg, heq, hfr⟩
      rw [hn4ids] at hfr
      exact hfr
    · rcases hI3 p h with ⟨g, hg, heq, hfr⟩
      intro hc
      apply hfr
      rw [hm2ids, hO1, List.map_append, hn4ids]
      exact List.mem_append_left _ hc
  have hBor : ∀ p ∈ lOut ++ lIn, p.data.originId = some i := by
    intro p hp
    rcases List.mem_append.mp hp with h | h
    · rcases hO3 p h with ⟨g, hg, rfl, -⟩
      rfl
    · rcases hI3 p h with ⟨g, hg, rfl, -⟩
      rfl
  have hKnr : ∀ z ∈ r1.1, ¬ OriginReach (r1.1 ++ (lOut ++ lIn)) [i] z := by
    intro z hz hr
    have hz0 : z ∈ (removeDescAux [i] A).1 := by rw [← hr1]; exact hz
    have hzA := (removeDescAux_mem_fst [i] A z).mp hz0
    have hrK : OriginReach r1.1 [i] z := originReach_append_fresh hKcl hfreshB hr hz
    exact hzA.2 (originReach_mono (fun y hy => hKsub.subset hy) hrK)
  -- the second-pass working set views as survivors plus pushed nodes
  have hsoM2 : SameOrig m2 (n4 ++ lOut) := by
    rw [hm2, hO1]
    exact sameOrig_updateNode_left _ _ _ (fun x => ⟨rfl, rfl⟩)
  have hsoM2' : SameOrig (n4 ++ lOut) m2 := by
    rw [hm2, hO1]
    exact sameOrig_updateNode_right _ _ _ (fun x => ⟨rfl, rfl⟩)
  have hsoN4 : SameOrig n4 r1.1 := by
    rw [hn4]
    exact sameOrig_updateNode_left _ _ _ (fun x => ⟨rfl, rfl⟩)
  have hsoN4' : SameOrig r1.1 n4 := by
    rw [hn4]
    exact sameOrig_updateNode_right _ _ _ (fun x => ⟨rfl, rfl⟩)
  have hsoB1 : SameOrig b1.1 (r1.1 ++ (lOut ++ lIn)) := by
    have h3 : SameOrig (m2 ++ lIn) ((r1.1 ++ lOut) ++ lIn) :=
      sameOrig_append
        (sameOrig_trans hsoM2 (sameOrig_append hsoN4 (sameOrig_refl lOut)))
        (sameOrig_refl lIn)
    have h4 : SameOrig ((r1.1 ++ lOut) ++ lIn) (r1.1 ++ (lOut ++ lIn)) := by
      rw [List.append_assoc]
      exact sameOrig_refl _
    rw [hI1]
    exact sameOrig_trans h3 h4
  have hsoB1' : SameOrig (r1.1 ++ (lOut ++ lIn)) b1.1 := by
    have h3 : SameOrig ((r1.1 ++ lOut) ++ lIn) (m2 ++ lIn) :=
      sameOrig_append
        (sameOrig_trans (sameOrig_append hsoN4' (sameOrig_refl lOut)) hsoM2')
        (sameOrig_refl lIn)
    have h4 : SameOrig (r1.1 ++ (lOut ++ lIn)) ((r1.1 ++ lOut) ++ lIn) := by
      rw [List.append_assoc]
      exact sameOrig_refl _
    rw [hI1]
    exact sameOrig_trans h4 h3
  have hsoA2 : SameOrig A2 (r1.1 ++ (lOut ++ lIn)) := by
    rw [hA2]
    exact sameOrig_trans (sameOrig_updateNode_left _ _ _ hF) hsoB1
  have hsoA2' : SameOrig (r1.1 ++ (lOut ++ lIn)) A2 := by
    rw [hA2]
    exact sameOrig_trans hsoB1' (sameOrig_updateNode_right _ _ _ hF)
  -- second-pass removal strips exactly the pushed property nodes
  have hM3 := removeDescAux_fresh_spec i A2 r1.1 (lOut ++ lIn) hsoA2 hsoA2' hKnr hBor
  rw [← hr2] at hM3
  -- second-pass edge filter: old edges survive, outbound edges go,
  -- inbound edges into surviving property nodes survive
  have hb1e : b1.2 = (e3 ++ eOut) ++ eIn := by rw [hI2, hO2]
  have he3K : ∀ e ∈ e3, e.source ∈ r1.1.map GNode.id ∧ e.target ∈ r1.1.map GNode.id := by
    intro e he
    have he0 : e ∈ E.filter (fun e => !(r1.2.contains e.source || r1.2.contains e.target)) := by
      rw [← he3]
      exact he
    have hem := List.mem_filter.mp he0
    have hcond : e.source ∉ r1.2 ∧ e.target ∉ r1.2 := by simpa using hem.2
    constructor
    · rcases List.mem_map.mp (hec e hem.1).1 with ⟨x, hxA, hxid⟩
      by_cases hrx : OriginReach A [i] x
      · have hd : e.source ∈ r1.2 := by
          rw [hr1]
          exact (removeDescAux_mem_snd [i] A e.source).mpr ⟨x, hxA, hxid, hrx⟩
        exact absurd hd hcond.1
      · have hk : x ∈ r1.1 := by
          rw [hr1]
          exact (removeDescAux_mem_fst [i] A x).mpr ⟨hxA, hrx⟩
        exact hxid ▸ List.mem_map_of_mem GNode.id hk
    · rcases List.mem_map.mp (hec e hem.1).2 with ⟨x, hxA, hxid⟩
      by_cases hrx : OriginReach A [i] x
      · have hd : e.target ∈ r1.2 := by
          rw [hr1]
          exact (removeDescAux_mem_snd [i] A e.target).mpr ⟨x, hxA, hxid, hrx⟩
        exact absurd hd hcond.2
      · have hk : x ∈ r1.1 := by
          rw [hr1]
          exact (removeDescAux_mem_fst [i] A x).mpr ⟨hxA, hrx⟩
        exact hxid ▸ List.mem_map_of_mem GNode.id hk
  have hKnotB : ∀ j, j ∈ r1.1.map GNode.id → j ∉ (lOut ++ lIn).map GNode.id := by
    intro j hjK hjB
    rcases List.mem_map.mp hjB with ⟨p, hp, rfl⟩
    exact hfreshB p hp hjK
  have hfe3 : e3.filter (fun e => !(r2.2.contains e.source || r2.2.contains e.target)) = e3 := by
    rw [List.filter_eq_self]
    intro e he
    have hs : e.source ∉ r2.2 := fun hc => hKnotB _ (he3K e he).1 ((hM3.1 e.source).mp hc)
    have ht : e.target ∉ r2.2 := fun hc => hKnotB _ (he3K e he).2 ((hM3.1 e.target).mp hc)
    simp [hs, ht]
  have hfeOut : eOut.filter (fun e => !(r2.2.contains e.source || r2.2.contains e.target)) = [] := by
    rw [List.filter_eq_nil_iff]
    intro e he
    rcases hO4 e he with ⟨g, hg, rfl, -, hmemid⟩
    have ht2 : (buildPropertyNode ps i g).id ∈ r2.2 := by
      apply (hM3.1 _).mpr
      rw [List.map_append]
      exact List.mem_append_left _ hmemid
    simp [buildEdge, ht2]
  set S := eIn.filter (fun e => !(r2.2.contains e.source || r2.2.contains e.target))
    with hS
  have hE3p : e3' = e3 ++ S := by
    rw [he3p, hb1e, List.filter_append, List.filter_append, hfe3, hfeOut,
      List.append_nil, ← hS]
  have hSsub : S.Sublist eIn := by
    rw [hS]
    exact List.filter_sublist eIn
  have heInnd : (eIn.map GEdge.eid).Nodup := by
    have h1 : ((a1.2 ++ eIn).map GEdge.eid).Nodup := by
      rw [← hI2]
      exact hnd2.2
    rw [List.map_append] at h1
    exact (List.nodup_append.mp h1).2.1
  have hSnd : (S.map GEdge.eid).Nodup := heInnd.sublist (hSsub.map GEdge.eid)
  have hSchar : ∀ e ∈ S, ∃ g ∈ ins.items,
      e = buildEdge (buildPropertyNode ps i g).id i g.predicateUri i ∧
      (buildPropertyNode ps i g).id ∈ r1.1.map GNode.id ∧
      (∀ e2 ∈ a1.2, inboundEdgePattern g.predicateId i e2 = false) ∧
      ((i, (buildPropertyNode ps i g).id) ∉ a1.2.map GEdge.eid) := by
    intro e he
    have heIn : e ∈ eIn := hSsub.subset he
    rcases hI4 e heIn with ⟨g, hg, heq, hpat, hnin, hid⟩
    refine ⟨g, hg, heq, ?_, hpat, hnin⟩
    have he0 : e ∈ eIn.filter (fun e => !(r2.2.contains e.source || r2.2.contains e.target)) := by
      rw [← hS]
      exact he
    have hcond : e.source ∉ r2.2 ∧ e.target ∉ r2.2 := by
      simpa using (List.mem_filter.mp he0).2
    have hsrc : e.source = (buildPropertyNode ps i g).id := by
      rw [heq]
      rfl
    have hnotB : (buildPropertyNode ps i g).id ∉ (lOut ++ lIn).map GNode.id := by
      intro hc
      exact hcond.1 (by rw [hsrc]; exact (hM3.1 _).mpr hc)
    have hid2 : (buildPropertyNode ps i g).id
        ∈ (r1.1.map GNode.id ++ lOut.map GNode.id) ++ lIn.map GNode.id := by
      rw [List.map_append, hm2ids, hO1, List.map_append, hn4ids] at hid
      exact hid
    rcases List.mem_append.mp hid2 with h | h
    · rcases List.mem_append.mp h with h2 | h2
      · exact h2
      · exact absurd (by rw [List.map_append]; exact List.mem_append_left _ h2) hnotB
    · exact absurd (by rw [List.map_append]; exact List.mem_append_right _ h) hnotB
  -- outbound merge runs in parallel on both passes
  have hq1ne : ∀ g : TripleGroup, (buildPropertyNode ps i g).id ≠ i := by
    intro g hcc
    rw [buildPropertyNode_id, hik] at hcc
    cases hcc
  have hnsOut : ∀ j, j ∈ n4'.map GNode.id ↔ j ∈ n4.map GNode.id := by
    intro j
    rw [hn4p, updateNode_map_id r2.1 i (setOutTotal outs.total) (fun x => rfl), hn4ids]
    exact hM3.2 j
  have hpermOut : List.Perm (e3'.map GEdge.eid) (e3.map GEdge.eid ++ S.map GEdge.eid) := by
    rw [hE3p, List.map_append]
  have hextraOut : ∀ q ∈ S.map GEdge.eid, q.1 ≠ i ∧ q.1 ∈ n4.map GNode.id := by
    intro q hq
    rcases List.mem_map.mp hq with ⟨e, he, rfl⟩
    rcases hSchar e he with ⟨g, hg, heq, hKid, -, -⟩
    have heid : e.eid = ((buildPropertyNode ps i g).id, i) := by
      rw [heq, buildEdge_eid]
    rw [heid]
    exact ⟨hq1ne g, by rw [hn4ids]; exact hKid⟩
  have hOutPar := expandOutFold_parallel ps i o outs.items n4 n4' e3 e3'
    (S.map GEdge.eid) hnsOut hpermOut hextraOut
  rw [← ha1, ← ha1p] at hOutPar
  -- inbound merge runs in parallel on both passes
  have hm2pids : m2'.map GNode.id = a1'.1.map GNode.id := by
    rw [hm2p]
    exact updateNode_map_id _ _ _ (fun x => rfl)
  have hiNotP : ∀ pid a, i ≠ WId.p pid a := by
    intro pid a hcc
    rw [hik] at hcc
    cases hcc
  have hnsIn : ∀ j, j ∈ m2'.map GNode.id ↔ j ∈ m2.map GNode.id := by
    intro j
    rw [hm2pids, hm2ids]
    exact hOutPar.1 j
  have hextraIn : ∀ q ∈ S.map GEdge.eid, ∃ g ∈ ins.items,
      q = ((buildPropertyNode ps i g).id, i) ∧
      (buildPropertyNode ps i g).id ∈ m2.map GNode.id ∧
      (∀ e2 ∈ a1.2, inboundEdgePattern g.predicateId i e2 = false) ∧
      ((i, (buildPropertyNode ps i g).id) ∉ a1.2.map GEdge.eid) := by
    intro q hq
    rcases List.mem_map.mp hq with ⟨e, he, rfl⟩
    rcases hSchar e he with ⟨g, hg, heq, hKid, hpat, hnin⟩
    refine ⟨g, hg, by rw [heq, buildEdge_eid], ?_, hpat, hnin⟩
    rw [hm2ids, hO1, List.map_append, hn4ids]
    exact List.mem_append_left _ hKid
  have hInPar := expandInFold_parallel ps i hiNotP ins.items hpin m2 m2' a1.2 a1'.2
    (S.map GEdge.eid) hnsIn hOutPar.2 hSnd hextraIn
  rw [← hb1, ← hb2] at hInPar
  -- second-pass duplicate freedom
  have hA2nd : (A2.map GNode.id).Nodup := by
    rw [hA2, updateNode_map_id _ _ _ (fun x => (hF x).1)]
    exact hnd2.1
  have hr2sub : r2.1.Sublist A2 := by
    rw [hr2]
    exact removeDescAux_sublist (2 * A2.length + [i].length) [i] A2 le_rfl
  have hr2nd : (r2.1.map GNode.id).Nodup := hA2nd.sublist (hr2sub.map GNode.id)
  have he3pnd : (e3'.map GEdge.eid).Nodup := by
    have hsub : e3'.Sublist b1.2 := by
      rw [he3p]
      exact List.filter_sublist _
    exact hnd2.2.sublist (hsub.map GEdge.eid)
  have hnd1p := nodup_expandOutFold ps i o outs.items (n4', e3')
    ⟨by show (n4'.map GNode.id).Nodup;
        rw [hn4p, updateNode_map_id r2.1 i (setOutTotal outs.total) (fun x => rfl)];
        exact hr2nd, he3pnd⟩
  rw [← ha1p] at hnd1p
  have hnd2p := nodup_expandInFold ps i ins.items (m2', a1'.2)
    ⟨by show (m2'.map GNode.id).Nodup; rw [hm2pids]; exact hnd1p.1, hnd1p.2⟩
  rw [← hb2] at hnd2p
  exact ⟨hInPar.1, hInPar.2, hnd2.1, hnd2.2, hnd2p.1, hnd2p.2⟩

/-- C9: idempotence of re-expansion. For an entity node of a working set
with unique node ids and edge ids, origin ids and edge endpoints that
point at present nodes, no active selection, inbound groups with distinct
predicates, and a query service returning identical pages on both calls,
expanding the node twice with no filter overrides yields the same node-id
set and the same edge-id set as expanding it once, and both collections
stay free of duplicate ids. -/
theorem c9_reexpand_idempotent (ps k : Nat) (node : GNode)
    (outs ins : Page TripleGroup) (st0 : WState)
    (hmem : node ∈ st0.nodes)
    (hkid : node.id = WId.n k)
    (hsel : st0.selectedId = none)
    (hndn : (st0.nodes.map GNode.id).Nodup)
    (hnde : (st0.edges.map GEdge.eid).Nodup)
    (hoc : ∀ x ∈ st0.nodes, ∀ j, x.data.originId = some j →
        j ∈ st0.nodes.map GNode.id)
    (hec : ∀ e ∈ st0.edges, e.source ∈ st0.nodes.map GNode.id ∧
        e.target ∈ st0.nodes.map GNode.id)
    (hpin : (ins.items.map TripleGroup.predicateId).Nodup) :
    (∀ j, j ∈ (expandNodeNext ps node none none outs ins
          (expandNodeNext ps node none none outs ins st0)).nodes.map GNode.id ↔
        j ∈ (expandNodeNext ps node none none outs ins st0).nodes.map GNode.id) ∧
    (∀ q, q ∈ (expandNodeNext ps node none none outs ins
          (expandNodeNext ps node none none outs ins st0)).edges.map GEdge.eid ↔
        q ∈ (expandNodeNext ps node none none outs ins st0).edges.map GEdge.eid) ∧
    ((expandNodeNext ps node none none outs ins
        (expandNodeNext ps node none none outs ins st0)).nodes.map GNode.id).Nodup ∧
    ((expandNodeNext ps node none none outs ins
        (expandNodeNext ps node none none outs ins st0)).edges.map GEdge.eid).Nodup := by
  have hs1 := expandNodeNext_no_sel ps node outs ins st0 hsel
  have hs1sel : (expandNodeNext ps node none none outs ins st0).selectedId = none := by
    rw [hs1]
    exact hsel
  have hs2 := expandNodeNext_no_sel ps node outs ins
    (expandNodeNext ps node none none outs ins st0) hs1sel
  rw [hs2, hs1]
  dsimp only
  set FF := setExpandedFilters
    (expandNodeOutFilter ps (getNodeNumericId node.id) node none)
    (expandNodeInFilter ps (getNodeNumericId node.id) node none) with hFF
  set A0 := updateNode st0.nodes node.id FF with hA0
  have hA0nd : (A0.map GNode.id).Nodup := by
    rw [hA0, updateNode_map_id st0.nodes node.id FF (fun x => rfl)]
    exact hndn
  have hA0oc : ∀ x ∈ A0, ∀ j, x.data.originId = some j → j ∈ A0.map GNode.id := by
    intro x hx j hj
    rw [hA0] at hx
    rcases (mem_updateNode st0.nodes node.id FF x).mp hx with ⟨y, hy, rfl⟩
    rw [hA0, updateNode_map_id st0.nodes node.id FF (fun x => rfl)]
    by_cases h : y.id = node.id
    · rw [if_pos h] at hj
      exact hoc y hy j hj
    · rw [if_neg h] at hj
      exact hoc y hy j hj
  have hA0ec : ∀ e ∈ st0.edges, e.source ∈ A0.map GNode.id ∧
      e.target ∈ A0.map GNode.id := by
    intro e he
    rw [hA0, updateNode_map_id st0.nodes node.id FF (fun x => rfl)]
    exact hec e he
  have hW := expandCore_parallel ps k node.id node.data.originId outs ins
    A0 st0.edges FF hkid (fun x => ⟨rfl, rfl⟩) hA0nd hnde hA0oc hA0ec hpin
  exact ⟨hW.1, fun q => hW.2.1.mem_iff, hW.2.2.2.2.1, hW.2.2.2.2.2⟩

/-- C9 witness: expanding the one-entity working set twice through the
same outbound and inbound group pages keeps the node-id set of the single
expansion, by the idempotence theorem at a concrete input. -/
theorem c9_reexpand_idempotent_witness :
    sampleEntity.id = WId.n 1 ∧
    (∀ j, j ∈ (expandNodeNext 10 sampleEntity none none ⟨[⟨7, "ex:p", 2⟩], 1⟩
          ⟨[⟨9, "ex:q", 1⟩], 1⟩ (expandNodeNext 10 sampleEntity none none
          ⟨[⟨7, "ex:p", 2⟩], 1⟩ ⟨[⟨9, "ex:q", 1⟩], 1⟩
          sampleEntityState)).nodes.map GNode.id ↔
        j ∈ (expandNodeNext 10 sampleEntity none none ⟨[⟨7, "ex:p", 2⟩], 1⟩
          ⟨[⟨9, "ex:q", 1⟩], 1⟩ sampleEntityState).nodes.map GNode.id) :=
  ⟨rfl,
   (c9_reexpand_idempotent 10 1 sampleEntity ⟨[⟨7, "ex:p", 2⟩], 1⟩
      ⟨[⟨9, "ex:q", 1⟩], 1⟩ sampleEntityState (by decide) rfl rfl (by decide)
      (by decide)
      (by intro x hx j hj; simp [sampleEntityState, WState.init] at hx; subst hx;
          simp [sampleEntity] at hj)
      (by intro e he; simp [sampleEntityState, WState.init] at he)
      (by decide)).1⟩
